import Mathlib

/-!
# Library installation (`commands/service_library_install.go`)

A shallow embedding of `LibraryInstall`, `installLibrary`, `ZipLibraryInstall` and
`GitLibraryInstall`.

* The collaborators that live in other packages (instance lookup, dependency resolver,
  version parsing, catalog lookup, prerequisite check, download, uninstall, resource install,
  re-initialisation) are fields of `Env`: each one is an arbitrary function giving the outcome
  of the call and, for the mutating ones, the state it leaves.
* The state has two parts: the registry held by the libraries manager, and the library
  folders on disk. The methods of the installer (`Uninstall`, `InstallZipLib`,
  `InstallGitLib`) may change both; `Resource.Install` is called with three paths only and
  changes the disk; `Init` rebuilds the registry.
* Every observable effect is appended to a chronological trace of `Event`s. One `download`
  event stands for the whole call of `downloadLibrary`, progress messages included; the
  `logrus` log line of `installLibrary` is not an effect of the model.
* A Go `map` is an association list with unique keys; the order in which `range` visits it
  is a field of `Env` that is only known to be a permutation of the entries.
* `defer f()` is embedded by running `f` after the rest of the body on each path.
-/

namespace ArduinoCli

/-! ## Definitions -/

/-- A `*semver.Version`; `none` is the nil pointer. -/
abbrev Version := Option String

/-- A filesystem path (`*paths.Path`) as its list of components. -/
abbrev Path := List String

/-- The directory containing a path (`Path.Parent()`). -/
def Path.Parent (p : Path) : Path := p.dropLast

/-- Install locations (`libraries.LibraryLocation`). -/
inductive LibraryLocation where
  | IDEBuiltIn
  | User
  | Sketch
  deriving DecidableEq, Repr

/-- A catalog release (`*librariesindex.Release`). `addr` stands for the pointer identity that
keys the Go map `libReleasesToInstall`. -/
structure Release where
  addr : Nat
  Name : String
  Version : Version
  deriving DecidableEq, Repr

/-- An installed library (`*libraries.Library`), an entry of the registry. -/
structure Library where
  Name : String
  Version : Version
  InstallDir : Path
  Location : LibraryLocation
  deriving DecidableEq, Repr

/-- The registry of installed libraries held by the libraries manager. -/
abbrev Registry := List Library

/-- The library folders present on the filesystem. -/
abbrev Disk := List Library

/-- The result of the prerequisite check (`*librariesmanager.LibraryInstallPlan`). -/
structure LibraryInstallPlan where
  TargetPath : Path
  ReplacedLib : Option Library
  UpToDate : Bool
  deriving DecidableEq, Repr

/-- A resolved requirement (`*rpc.LibraryDependencyStatus`). -/
structure LibraryDependencyStatus where
  Name : String
  VersionRequired : String
  VersionInstalled : String := ""
  deriving DecidableEq, Repr

/-- The request (`*rpc.LibraryInstallRequest`); `InstallLocation` is the numeric value of the
RPC enumeration. -/
structure LibraryInstallRequest where
  Name : String
  Version : String
  NoDeps : Bool
  NoOverwrite : Bool
  InstallLocation : Nat
  deriving DecidableEq, Repr

/-- The request of `ZipLibraryInstall`. -/
structure ZipLibraryInstallRequest where
  Path : String
  Overwrite : Bool
  deriving DecidableEq, Repr

/-- The request of `GitLibraryInstall`. -/
structure GitLibraryInstallRequest where
  Url : String
  Overwrite : Bool
  deriving DecidableEq, Repr

/-- The texts built with `tr(...)`, kept structured: one constructor per format string, with
the arguments in the order of the source. -/
inductive Text where
  | empty
  | twoDifferentVersions (name : String) (v1 : String) (v2 : String)
  | alreadyInstalled (libRelease : Release)
  | differentVersionInstalled (libRelease : Release) (replaced : Library)
  | installing (libRelease : Release)
  | replacing (libReplaced : Library) (libRelease : Release)
  | installed (libRelease : Release)
  | libraryInstalled
  deriving DecidableEq, Repr

/-- Error values. `upstream` is an error produced by a collaborator and passed through. -/
inductive Err where
  | upstream (code : Nat)
  | message (t : Text)
  | couldNotRemoveOldLibrary (err : Err)
  | LibraryDependenciesResolutionFailedError (Cause : Err)
  | FailedLibraryInstallError (Cause : Err)
  deriving DecidableEq, Repr

/-- A task-progress message (`*rpc.TaskProgress`). -/
structure TaskProgress where
  Name : Text := Text.empty
  Message : Text := Text.empty
  Completed : Bool := false
  deriving DecidableEq, Repr

/-- The three leases of `LibraryInstall`; the alternate installers take `libraryInstaller`. -/
inductive Lease where
  | libraryExplorer
  | packageExplorer
  | libraryInstaller
  deriving DecidableEq, Repr

/-- Observable effects, in the order in which they happen. `uninstall` and `install` record
the release being installed when the call is made. -/
inductive Event where
  | acquire (l : Lease)
  | release (l : Lease)
  | resolve (name : String) (version : String) (noOverwrite : Bool)
  | task (p : TaskProgress)
  | download (libRelease : Release) (downloadReason : String)
  | uninstall (libRelease : Release) (libReplaced : Library)
  | install (libRelease : Release) (tmpDirPath : Path) (installPath : Path)
  | init
  | installZipLib (path : String) (overwrite : Bool)
  | installGitLib (url : String) (overwrite : Bool)
  deriving DecidableEq, Repr

/-- The state threaded through the code: the registry, the disk and the trace so far. -/
structure World where
  registry : Registry
  disk : Disk
  trace : List Event
  deriving DecidableEq, Repr

/-- Append one event to the trace. -/
def World.emit (w : World) (e : Event) : World :=
  { w with trace := w.trace ++ [e] }

/-- What a call leaves behind: the final state and the returned error (`none` is `nil`). -/
structure Outcome where
  world : World
  err : Option Err
  deriving DecidableEq, Repr

/-- The collaborators of the install service, for one instance. A lookup that can only fail
or succeed is an `Option Err` (`none` is success). -/
structure Env where
  GetLibrariesIndex : Option Err
  GetLibraryManagerExplorer : Option Err
  libraryResolveDependencies :
    Registry → String → String → Bool → Except Err (List LibraryDependencyStatus)
  GetPackageManagerExplorer : Option Err
  GetLibraryManagerInstaller : Option Err
  GetLibraryManager : Option Err
  FromRPCLibraryInstallLocation : Nat → LibraryLocation
  ParseVersion : String → Except Err Version
  FindRelease : String → Version → Except Err Release
  InstallPrerequisiteCheck :
    Registry → String → Version → LibraryLocation → Except Err LibraryInstallPlan
  downloadLibrary : Release → String → Option Err
  Uninstall : Registry → Disk → Library → (Registry × Disk) × Option Err
  ResourceInstall : Disk → Release → Path → Path → Disk × Option Err
  Init : Registry → Disk → Registry × Option Err
  InstallZipLib : Registry → Disk → String → Bool → (Registry × Disk) × Option Err
  InstallGitLib : Registry → Disk → String → Bool → (Registry × Disk) × Option Err
  rangeToInstall :
    List (String × LibraryDependencyStatus) → List (String × LibraryDependencyStatus)
  rangeToInstall_perm : ∀ m, (rangeToInstall m).Perm m
  rangeLibReleasesToInstall :
    List (Release × LibraryInstallPlan) → List (Release × LibraryInstallPlan)
  rangeLibReleasesToInstall_perm : ∀ m, (rangeLibReleasesToInstall m).Perm m

/-- Lookup `m[k]` with the presence flag. -/
def mapGet {κ ν : Type} [DecidableEq κ] : List (κ × ν) → κ → Option ν
  | [], _ => none
  | (k1, v1) :: rest, k => if k1 = k then some v1 else mapGet rest k

/-- Assignment `m[k] = v`: replaces the entry of `k` or adds one. -/
def mapSet {κ ν : Type} [DecidableEq κ] : List (κ × ν) → κ → ν → List (κ × ν)
  | [], k, v => [(k, v)]
  | (k1, v1) :: rest, k, v =>
    if k1 = k then (k, v) :: rest else (k1, v1) :: mapSet rest k v

/-- The merge loop over `res.GetDependencies()` (lines 60-70). -/
def mergeDependencies :
    List LibraryDependencyStatus → List (String × LibraryDependencyStatus) →
      Except Err (List (String × LibraryDependencyStatus))
  | [], toInstall => .ok toInstall
  | dep :: rest, toInstall =>
    match mapGet toInstall dep.Name with
    | some existingDep =>
      if existingDep.VersionRequired ≠ dep.VersionRequired then
        .error (Err.LibraryDependenciesResolutionFailedError
          (Err.message
            (Text.twoDifferentVersions dep.Name dep.VersionRequired existingDep.VersionRequired)))
      else mergeDependencies rest (mapSet toInstall dep.Name dep)
    | none => mergeDependencies rest (mapSet toInstall dep.Name dep)

/-- The construction of `toInstall` (lines 41-71). -/
def buildToInstall (env : Env) (req : LibraryInstallRequest) (w : World) :
    World × Except Err (List (String × LibraryDependencyStatus)) :=
  if req.NoDeps then
    (w, .ok (mapSet [] req.Name { Name := req.Name, VersionRequired := req.Version }))
  else
    match env.GetLibraryManagerExplorer with
    | some err => (w, .error err)
    | none =>
      let w1 := (w.emit (Event.acquire Lease.libraryExplorer)).emit
        (Event.resolve req.Name req.Version req.NoOverwrite)
      let res := env.libraryResolveDependencies w.registry req.Name req.Version req.NoOverwrite
      let w2 := w1.emit (Event.release Lease.libraryExplorer)
      match res with
      | .error err => (w2, .error err)
      | .ok deps => (w2, mergeDependencies deps [])

/-- The loop that finds the releases to install (lines 92-117), over the requirements in the
order in which `range toInstall` yields them. -/
def planLoop (env : Env) (noOverwrite : Bool) (installLocation : LibraryLocation) :
    List LibraryDependencyStatus → List (Release × LibraryInstallPlan) → World →
      World × Except Err (List (Release × LibraryInstallPlan))
  | [], libReleasesToInstall, w => (w, .ok libReleasesToInstall)
  | lib :: rest, libReleasesToInstall, w =>
    match env.ParseVersion lib.VersionRequired with
    | .error err => (w, .error err)
    | .ok version =>
      match env.FindRelease lib.Name version with
      | .error err => (w, .error err)
      | .ok libRelease =>
        match env.InstallPrerequisiteCheck w.registry libRelease.Name libRelease.Version
            installLocation with
        | .error err => (w, .error err)
        | .ok installTask =>
          if installTask.UpToDate then
            planLoop env noOverwrite installLocation rest libReleasesToInstall
              (w.emit (Event.task
                { Message := Text.alreadyInstalled libRelease, Completed := true }))
          else
            match noOverwrite, installTask.ReplacedLib with
            | true, some replaced =>
              (w, .error (Err.message (Text.differentVersionInstalled libRelease replaced)))
            | _, _ =>
              planLoop env noOverwrite installLocation rest
                (mapSet libReleasesToInstall libRelease installTask) w

/-- The download reason of one plan entry (lines 121-130). -/
def downloadReason (reqName : String) (installLocation : LibraryLocation)
    (libRelease : Release) (installTask : LibraryInstallPlan) : String :=
  if libRelease.Name = reqName then
    let r1 := if installTask.ReplacedLib.isSome then "upgrade" else "install"
    if installLocation = LibraryLocation.IDEBuiltIn then r1 ++ "-builtin" else r1
  else "depends"

/-- The source function `installLibrary` (lines 146-166). -/
def installLibrary (env : Env) (libRelease : Release) (installTask : LibraryInstallPlan)
    (w : World) : World × Option Err :=
  let w1 := w.emit (Event.task { Name := Text.installing libRelease })
  let uninstalled : World × Option Err :=
    match installTask.ReplacedLib with
    | some libReplaced =>
      let w2 := (w1.emit (Event.task { Message := Text.replacing libReplaced libRelease })).emit
        (Event.uninstall libRelease libReplaced)
      let r := env.Uninstall w2.registry w2.disk libReplaced
      ({ w2 with registry := r.1.1, disk := r.1.2 }, r.2)
    | none => (w1, none)
  match uninstalled with
  | (w3, some err) =>
    (w3, some (Err.FailedLibraryInstallError (Err.couldNotRemoveOldLibrary err)))
  | (w3, none) =>
    let installPath := installTask.TargetPath
    let tmpDirPath := Path.Parent installPath
    let w4 := w3.emit (Event.install libRelease tmpDirPath installPath)
    let r := env.ResourceInstall w4.disk libRelease tmpDirPath installPath
    let w5 : World := { w4 with disk := r.1 }
    match r.2 with
    | some err => (w5, some (Err.FailedLibraryInstallError err))
    | none =>
      (w5.emit (Event.task { Message := Text.installed libRelease, Completed := true }), none)

/-- The loop that executes the plan (lines 119-137), over the plan entries in the order in
which `range libReleasesToInstall` yields them. -/
def executeLoop (env : Env) (reqName : String) (installLocation : LibraryLocation) :
    List (Release × LibraryInstallPlan) → World → World × Option Err
  | [], w => (w, none)
  | (libRelease, installTask) :: rest, w =>
    let reason := downloadReason reqName installLocation libRelease installTask
    let w1 := w.emit (Event.download libRelease reason)
    match env.downloadLibrary libRelease reason with
    | some err => (w1, some err)
    | none =>
      match installLibrary env libRelease installTask w1 with
      | (w2, some err) => (w2, some err)
      | (w2, none) => executeLoop env reqName installLocation rest w2

/-- Lines 89-143: what runs while the installer lease is held. -/
def installWithLease (env : Env) (req : LibraryInstallRequest)
    (toInstall : List (String × LibraryDependencyStatus)) (w : World) : World × Option Err :=
  let installLocation := env.FromRPCLibraryInstallLocation req.InstallLocation
  match planLoop env req.NoOverwrite installLocation
      ((env.rangeToInstall toInstall).map Prod.snd) [] w with
  | (w1, .error err) => (w1, some err)
  | (w1, .ok libReleasesToInstall) =>
    match executeLoop env req.Name installLocation
        (env.rangeLibReleasesToInstall libReleasesToInstall) w1 with
    | (w2, some err) => (w2, some err)
    | (w2, none) =>
      let r := env.Init w2.registry w2.disk
      ({ registry := r.1, disk := w2.disk, trace := w2.trace ++ [Event.init] }, r.2)

/-- The source function `LibraryInstall` (lines 34-144), started on registry `reg` and disk
`disk` with an empty trace. -/
def LibraryInstall (env : Env) (req : LibraryInstallRequest) (reg : Registry) (disk : Disk) :
    Outcome :=
  let w0 : World := { registry := reg, disk := disk, trace := [] }
  match env.GetLibrariesIndex with
  | some err => { world := w0, err := some err }
  | none =>
    match buildToInstall env req w0 with
    | (w1, .error err) => { world := w1, err := some err }
    | (w1, .ok toInstall) =>
      match env.GetPackageManagerExplorer with
      | some err => { world := w1, err := some err }
      | none =>
        let w2 := (w1.emit (Event.acquire Lease.packageExplorer)).emit
          (Event.release Lease.packageExplorer)
        match env.GetLibraryManagerInstaller with
        | some err => { world := w2, err := some err }
        | none =>
          let w3 := w2.emit (Event.acquire Lease.libraryInstaller)
          let r := installWithLease env req toInstall w3
          { world := r.1.emit (Event.release Lease.libraryInstaller), err := r.2 }

/-- The source function `ZipLibraryInstall` (lines 169-181). -/
def ZipLibraryInstall (env : Env) (req : ZipLibraryInstallRequest) (reg : Registry)
    (disk : Disk) : Outcome :=
  let w0 : World := { registry := reg, disk := disk, trace := [] }
  match env.GetLibraryManager with
  | some err => { world := w0, err := some err }
  | none =>
    let w1 := (w0.emit (Event.acquire Lease.libraryInstaller)).emit
      (Event.installZipLib req.Path req.Overwrite)
    let r := env.InstallZipLib w1.registry w1.disk req.Path req.Overwrite
    let w2 : World := { w1 with registry := r.1.1, disk := r.1.2 }
    match r.2 with
    | some err =>
      { world := w2.emit (Event.release Lease.libraryInstaller),
        err := some (Err.FailedLibraryInstallError err) }
    | none =>
      { world := (w2.emit (Event.task { Message := Text.libraryInstalled, Completed := true })).emit
          (Event.release Lease.libraryInstaller),
        err := none }

/-- The source function `GitLibraryInstall` (lines 184-196). -/
def GitLibraryInstall (env : Env) (req : GitLibraryInstallRequest) (reg : Registry)
    (disk : Disk) : Outcome :=
  let w0 : World := { registry := reg, disk := disk, trace := [] }
  match env.GetLibraryManager with
  | some err => { world := w0, err := some err }
  | none =>
    let w1 := (w0.emit (Event.acquire Lease.libraryInstaller)).emit
      (Event.installGitLib req.Url req.Overwrite)
    let r := env.InstallGitLib w1.registry w1.disk req.Url req.Overwrite
    let w2 : World := { w1 with registry := r.1.1, disk := r.1.2 }
    match r.2 with
    | some err =>
      { world := w2.emit (Event.release Lease.libraryInstaller),
        err := some (Err.FailedLibraryInstallError err) }
    | none =>
      { world := (w2.emit (Event.task { Message := Text.libraryInstalled, Completed := true })).emit
          (Event.release Lease.libraryInstaller),
        err := none }

/-- The download, uninstall and install events of `LibraryInstall`. -/
def Event.isInstallWork : Event → Bool
  | .download _ _ => true
  | .uninstall _ _ => true
  | .install _ _ _ => true
  | _ => false

/-- One step of the lease ledger: `none` once a lease is released that is not held. -/
def leaseStep (held : Option (List Lease)) (e : Event) : Option (List Lease) :=
  match held, e with
  | some hs, .acquire l => some (l :: hs)
  | some hs, .release l => if l ∈ hs then some (hs.erase l) else none
  | some hs, _ => some hs
  | none, _ => none

/-- The leases held at the end of a trace that starts with none held. -/
def leasesHeld (trace : List Event) : Option (List Lease) :=
  trace.foldl leaseStep (some [])

/-- The task-progress events that report a completion. -/
def Event.isCompleted : Event → Bool
  | .task p => p.Completed
  | _ => false

/-- Release 1 of library A. -/
def relA1 : Release := { addr := 1, Name := "A", Version := some "1" }

/-- Release 2 of library A. -/
def relA2 : Release := { addr := 2, Name := "A", Version := some "2" }

/-- Release 1 of library B. -/
def relB1 : Release := { addr := 3, Name := "B", Version := some "1" }

/-- Library A installed at version 1 in the user location. -/
def libA1 : Library :=
  { Name := "A", Version := some "1", InstallDir := ["libraries", "A"],
    Location := LibraryLocation.User }

/-- Library A installed at version 2 in the user location. -/
def libA2 : Library :=
  { Name := "A", Version := some "2", InstallDir := ["libraries", "A"],
    Location := LibraryLocation.User }

/-- An instance whose catalog has A 1, A 2 and B 1, where A depends on B, the download of B
fails, an uninstall removes the library from the registry and from the disk, a resource
install adds the folder to the disk, and `Init` reads the registry back from the disk. -/
def sampleEnv : Env where
  GetLibrariesIndex := none
  GetLibraryManagerExplorer := none
  libraryResolveDependencies := fun _ name version _ =>
    .ok [{ Name := name, VersionRequired := version }, { Name := "B", VersionRequired := "1" }]
  GetPackageManagerExplorer := none
  GetLibraryManagerInstaller := none
  GetLibraryManager := none
  FromRPCLibraryInstallLocation := fun n =>
    if n = 1 then LibraryLocation.IDEBuiltIn else LibraryLocation.User
  ParseVersion := fun s => if s = "bad" then .error (Err.upstream 1) else .ok (some s)
  FindRelease := fun name v =>
    if name = "A" ∧ v = some "1" then .ok relA1
    else if name = "A" ∧ v = some "2" then .ok relA2
    else if name = "B" ∧ v = some "1" then .ok relB1
    else .error (Err.upstream 2)
  InstallPrerequisiteCheck := fun reg name v _ =>
    match reg.find? (fun l => l.Name = name) with
    | some l =>
      .ok { TargetPath := ["libraries", name], ReplacedLib := some l,
            UpToDate := decide (l.Version = v) }
    | none => .ok { TargetPath := ["libraries", name], ReplacedLib := none, UpToDate := false }
  downloadLibrary := fun r _ => if r.Name = "B" then some (Err.upstream 3) else none
  Uninstall := fun reg disk l => ((reg.erase l, disk.erase l), none)
  ResourceInstall := fun disk r _ p =>
    (disk ++ [{ Name := r.Name, Version := r.Version, InstallDir := p,
                Location := LibraryLocation.User }], none)
  Init := fun _ disk => (disk, none)
  InstallZipLib := fun reg disk _ _ => ((reg, disk), none)
  InstallGitLib := fun reg disk _ _ => ((reg, disk), none)
  rangeToInstall := fun m => m
  rangeToInstall_perm := fun m => List.Perm.refl m
  rangeLibReleasesToInstall := fun m => m
  rangeLibReleasesToInstall_perm := fun m => List.Perm.refl m

/-- The sample instance with a resolver that reports A at two versions. -/
def conflictEnv : Env :=
  { sampleEnv with
    libraryResolveDependencies := fun _ _ _ _ =>
      .ok [{ Name := "A", VersionRequired := "1" }, { Name := "B", VersionRequired := "1" },
           { Name := "A", VersionRequired := "2" }] }

/-- The sample instance with an uninstall that fails. -/
def stuckEnv : Env :=
  { sampleEnv with Uninstall := fun reg disk _ => ((reg, disk), some (Err.upstream 4)) }

/-- The sample instance with a resolver that reports a library C, which the catalog does
not have, before the requested library. -/
def missingDepEnv : Env :=
  { sampleEnv with
    libraryResolveDependencies := fun _ name version _ =>
      .ok [{ Name := "C", VersionRequired := "7" }, { Name := name, VersionRequired := version }] }

/-- The instance `missingDepEnv` with the requirement map visited in the opposite order. -/
def missingDepEnvReversed : Env :=
  { missingDepEnv with
    rangeToInstall := fun m => m.reverse
    rangeToInstall_perm := fun m => List.reverse_perm m }

/-- Install A 2 with its dependencies. -/
def reqA2 : LibraryInstallRequest :=
  { Name := "A", Version := "2", NoDeps := false, NoOverwrite := false, InstallLocation := 0 }

/-- Install A 2 alone. -/
def reqA2NoDeps : LibraryInstallRequest :=
  { Name := "A", Version := "2", NoDeps := true, NoOverwrite := false, InstallLocation := 0 }

/-- Install A 2 with its dependencies, without overwriting. -/
def reqA2NoOverwrite : LibraryInstallRequest :=
  { Name := "A", Version := "2", NoDeps := false, NoOverwrite := true, InstallLocation := 0 }

/-- Install a library that the catalog does not have. -/
def reqMissing : LibraryInstallRequest :=
  { Name := "C", Version := "7", NoDeps := true, NoOverwrite := false, InstallLocation := 0 }

/-- The plan that replaces the installed A 1. -/
def planReplaceA1 : LibraryInstallPlan :=
  { TargetPath := ["libraries", "A"], ReplacedLib := some libA1, UpToDate := false }

/-- The plan that installs B where nothing is installed. -/
def planFreshB : LibraryInstallPlan :=
  { TargetPath := ["libraries", "B"], ReplacedLib := none, UpToDate := false }

/-- Every value of the requirement map is stored under its own name. -/
def KeyedByName (m : List (String × LibraryDependencyStatus)) : Prop :=
  ∀ p ∈ m, p.2.Name = p.1

/-- The trace of `w1` is the trace of `w` followed by events that all satisfy `P`. -/
def Extends (P : Event → Prop) (w w1 : World) : Prop :=
  ∃ evs, w1.trace = w.trace ++ evs ∧ ∀ e ∈ evs, P e

/-- The event of the planning loop: the notice that a release is already installed. -/
def alreadyInstalledEvent (libRelease : Release) : Event :=
  Event.task { Message := Text.alreadyInstalled libRelease, Completed := true }

/-- The verdict of the planning loop on one requirement (lines 93-116). -/
inductive PlanVerdict where
  | fail (err : Err)
  | skip (libRelease : Release)
  | add (libRelease : Release) (installTask : LibraryInstallPlan)
  deriving DecidableEq, Repr

/-- The body of the planning loop on one requirement, as a verdict. -/
def planStep (env : Env) (noOverwrite : Bool) (loc : LibraryLocation) (reg : Registry)
    (lib : LibraryDependencyStatus) : PlanVerdict :=
  match env.ParseVersion lib.VersionRequired with
  | .error err => .fail err
  | .ok version =>
    match env.FindRelease lib.Name version with
    | .error err => .fail err
    | .ok libRelease =>
      match env.InstallPrerequisiteCheck reg libRelease.Name libRelease.Version loc with
      | .error err => .fail err
      | .ok installTask =>
        if installTask.UpToDate then .skip libRelease
        else
          match noOverwrite, installTask.ReplacedLib with
          | true, some replaced =>
            .fail (Err.message (Text.differentVersionInstalled libRelease replaced))
          | _, _ => .add libRelease installTask

/-- The events `installLibrary` can emit for a plan entry: the only library it uninstalls is
the replaced library of the plan. -/
def InstallEvent (libRelease : Release) (installTask : LibraryInstallPlan) (e : Event) :
    Prop :=
  (∃ p, e = Event.task p) ∨
    (∃ lib, e = Event.uninstall libRelease lib ∧ installTask.ReplacedLib = some lib) ∨
    ∃ a b, e = Event.install libRelease a b

/-- The two events that open every call of `installLibrary` on a plan without a replaced
library, and the four that open it with one. -/
def installPrologue (libRelease : Release) (installTask : LibraryInstallPlan) : List Event :=
  match installTask.ReplacedLib with
  | some libReplaced =>
    [Event.task { Name := Text.installing libRelease },
     Event.task { Message := Text.replacing libReplaced libRelease },
     Event.uninstall libRelease libReplaced]
  | none => [Event.task { Name := Text.installing libRelease }]

/-- The registry, the disk and the error after the uninstall step of `installLibrary`. -/
def afterUninstall (env : Env) (installTask : LibraryInstallPlan) (reg : Registry)
    (disk : Disk) : (Registry × Disk) × Option Err :=
  match installTask.ReplacedLib with
  | some libReplaced => env.Uninstall reg disk libReplaced
  | none => ((reg, disk), none)

/-- The events the execution loop can emit over a list of plan entries. -/
def ExecEvent (reqName : String) (loc : LibraryLocation)
    (l : List (Release × LibraryInstallPlan)) (e : Event) : Prop :=
  (∃ p, e = Event.task p) ∨
    ∃ rt ∈ l, e = Event.download rt.1 (downloadReason reqName loc rt.1 rt.2) ∨
      (∃ lib, e = Event.uninstall rt.1 lib ∧ rt.2.ReplacedLib = some lib) ∨
      ∃ a b, e = Event.install rt.1 a b

/-- The events of the construction of the requirement set. -/
def BuildEvent (req : LibraryInstallRequest) (e : Event) : Prop :=
  req.NoDeps = false ∧
    (e = Event.acquire Lease.libraryExplorer ∨ e = Event.release Lease.libraryExplorer ∨
      e = Event.resolve req.Name req.Version req.NoOverwrite)

/-- The requirements in the order in which the planning loop visits them. -/
def visitOrder (env : Env) (toInstall : List (String × LibraryDependencyStatus)) :
    List LibraryDependencyStatus :=
  (env.rangeToInstall toInstall).map Prod.snd

/-- The events emitted while the installer lease is held. -/
def LockedEvent (env : Env) (req : LibraryInstallRequest)
    (toInstall : List (String × LibraryDependencyStatus)) (reg : Registry) (disk : Disk)
    (e : Event) : Prop :=
  (∃ p, e = Event.task p) ∨ e = Event.init ∨
    ∃ plans, (planLoop env req.NoOverwrite (env.FromRPCLibraryInstallLocation req.InstallLocation)
        (visitOrder env toInstall) [] { registry := reg, disk := disk, trace := [] }).2 = .ok plans ∧
      ∃ rt ∈ plans, e = Event.download rt.1 (downloadReason req.Name
          (env.FromRPCLibraryInstallLocation req.InstallLocation) rt.1 rt.2) ∨
        (∃ lib, e = Event.uninstall rt.1 lib ∧ rt.2.ReplacedLib = some lib) ∨
        ∃ a b, e = Event.install rt.1 a b

/-- Every event of a run of `LibraryInstall`, classified. -/
def RunEvent (env : Env) (req : LibraryInstallRequest) (reg : Registry) (disk : Disk)
    (e : Event) : Prop :=
  BuildEvent req e ∨
    e = Event.acquire Lease.packageExplorer ∨ e = Event.release Lease.packageExplorer ∨
    e = Event.acquire Lease.libraryInstaller ∨ e = Event.release Lease.libraryInstaller ∨
    ∃ toInstall, (buildToInstall env req { registry := reg, disk := disk, trace := [] }).2 = .ok toInstall ∧
      LockedEvent env req toInstall reg disk e

/-- The state in which the planning loop starts: the three lease events after the build. -/
def lockedStart (w1 : World) : World :=
  ((w1.emit (Event.acquire Lease.packageExplorer)).emit
    (Event.release Lease.packageExplorer)).emit (Event.acquire Lease.libraryInstaller)

/-! ## Theorems -/

theorem mapGet_mapSet_self {κ ν : Type} [DecidableEq κ] (m : List (κ × ν)) (k : κ) (v : ν) :
    mapGet (mapSet m k v) k = some v := by
  induction m with
  | nil => simp [mapSet, mapGet]
  | cons hd tl ih =>
    obtain ⟨k1, v1⟩ := hd
    by_cases h : k1 = k
    · simp [mapSet, mapGet, h]
    · simp [mapSet, mapGet, h, ih]

theorem mapGet_mapSet_ne {κ ν : Type} [DecidableEq κ] (m : List (κ × ν)) (k k2 : κ) (v : ν)
    (hne : k ≠ k2) : mapGet (mapSet m k v) k2 = mapGet m k2 := by
  induction m with
  | nil => simp [mapSet, mapGet, hne]
  | cons hd tl ih =>
    obtain ⟨k1, v1⟩ := hd
    by_cases h : k1 = k
    · subst h
      simp [mapSet, mapGet, hne]
    · by_cases h2 : k1 = k2
      · subst h2
        simp [mapSet, mapGet, h]
      · simp [mapSet, mapGet, h, h2, ih]

theorem mem_keys_mapSet {κ ν : Type} [DecidableEq κ] (m : List (κ × ν)) (k k2 : κ) (v : ν) :
    k2 ∈ (mapSet m k v).map Prod.fst ↔ k2 = k ∨ k2 ∈ m.map Prod.fst := by
  induction m with
  | nil => simp [mapSet]
  | cons hd tl ih =>
    obtain ⟨k1, v1⟩ := hd
    by_cases h : k1 = k
    · subst h
      simp [mapSet]
    · simp only [mapSet, h, if_false, List.map_cons, List.mem_cons, ih]
      tauto

theorem nodup_keys_mapSet {κ ν : Type} [DecidableEq κ] (m : List (κ × ν)) (k : κ) (v : ν)
    (hnd : (m.map Prod.fst).Nodup) : ((mapSet m k v).map Prod.fst).Nodup := by
  induction m with
  | nil => simp [mapSet]
  | cons hd tl ih =>
    obtain ⟨k1, v1⟩ := hd
    simp only [List.map_cons, List.nodup_cons] at hnd
    by_cases h : k1 = k
    · subst h
      simpa [mapSet] using hnd
    · simp only [mapSet, h, if_false, List.map_cons, List.nodup_cons]
      refine ⟨?_, ih hnd.2⟩
      rw [mem_keys_mapSet]
      rintro (h1 | h1)
      · exact h h1
      · exact hnd.1 h1

theorem mem_mapSet {κ ν : Type} [DecidableEq κ] (m : List (κ × ν)) (k : κ) (v : ν)
    (p : κ × ν) (hp : p ∈ mapSet m k v) : p = (k, v) ∨ p ∈ m := by
  induction m with
  | nil => simpa [mapSet] using hp
  | cons hd tl ih =>
    obtain ⟨k1, v1⟩ := hd
    by_cases h : k1 = k
    · simp only [mapSet, h, if_true, List.mem_cons] at hp
      rcases hp with hp | hp
      · exact Or.inl hp
      · exact Or.inr (List.mem_cons_of_mem _ hp)
    · simp only [mapSet, h, if_false, List.mem_cons] at hp
      rcases hp with hp | hp
      · exact Or.inr (by simp [hp])
      · rcases ih hp with h1 | h1
        · exact Or.inl h1
        · exact Or.inr (List.mem_cons_of_mem _ h1)

theorem mem_of_mapGet {κ ν : Type} [DecidableEq κ] (m : List (κ × ν)) (k : κ) (v : ν)
    (h : mapGet m k = some v) : (k, v) ∈ m := by
  induction m with
  | nil => simp [mapGet] at h
  | cons hd tl ih =>
    obtain ⟨k1, v1⟩ := hd
    by_cases h1 : k1 = k
    · simp only [mapGet, h1, if_true, Option.some.injEq] at h
      simp [h1, h]
    · simp only [mapGet, h1, if_false] at h
      exact List.mem_cons_of_mem _ (ih h)

theorem mapGet_eq_none_iff {κ ν : Type} [DecidableEq κ] (m : List (κ × ν)) (k : κ) :
    mapGet m k = none ↔ k ∉ m.map Prod.fst := by
  induction m with
  | nil => simp [mapGet]
  | cons hd tl ih =>
    obtain ⟨k1, v1⟩ := hd
    by_cases h1 : k1 = k
    · simp [mapGet, h1]
    · simp only [mapGet, h1, if_false, ih, List.map_cons, List.mem_cons]
      constructor
      · intro h2 h3
        rcases h3 with h3 | h3
        · exact h1 h3.symm
        · exact h2 h3
      · intro h2 h3
        exact h2 (Or.inr h3)

theorem keyedByName_mapSet (m : List (String × LibraryDependencyStatus))
    (dep : LibraryDependencyStatus) (h : KeyedByName m) :
    KeyedByName (mapSet m dep.Name dep) := by
  intro p hp
  rcases mem_mapSet m dep.Name dep p hp with h1 | h1
  · rw [h1]
  · exact h p h1

/-- One step of the merge loop that does not fail stores the entry. -/
theorem mergeDependencies_cons_ok (dep : LibraryDependencyStatus)
    (rest : List LibraryDependencyStatus) (m0 m : List (String × LibraryDependencyStatus))
    (h : mergeDependencies (dep :: rest) m0 = .ok m) :
    mergeDependencies rest (mapSet m0 dep.Name dep) = .ok m ∧
      ∀ d0, mapGet m0 dep.Name = some d0 → d0.VersionRequired = dep.VersionRequired := by
  unfold mergeDependencies at h
  split at h
  · rename_i existingDep hget
    split at h
    · simp at h
    · rename_i hv
      refine ⟨h, ?_⟩
      intro d0 hd0
      rw [hget] at hd0
      simp only [Option.some.injEq] at hd0
      subst hd0
      simpa using hv
  · rename_i hget
    refine ⟨h, ?_⟩
    intro d0 hd0
    rw [hget] at hd0
    simp at hd0

/-- What a successful merge loop leaves in the map. -/
theorem mergeDependencies_ok (deps : List LibraryDependencyStatus) :
    ∀ (m0 m : List (String × LibraryDependencyStatus)),
      mergeDependencies deps m0 = .ok m →
      ((m0.map Prod.fst).Nodup → (m.map Prod.fst).Nodup) ∧
      (∀ n, n ∈ m.map Prod.fst ↔ n ∈ m0.map Prod.fst ∨ n ∈ deps.map (fun d => d.Name)) ∧
      (∀ d ∈ deps, ∃ d1, mapGet m d.Name = some d1 ∧ d1.VersionRequired = d.VersionRequired) ∧
      (∀ k d0, mapGet m0 k = some d0 →
        ∃ d1, mapGet m k = some d1 ∧ d1.VersionRequired = d0.VersionRequired) ∧
      (∀ p ∈ m, p ∈ m0 ∨ (p.2 ∈ deps ∧ p.2.Name = p.1)) := by
  induction deps with
  | nil =>
    intro m0 m h
    simp only [mergeDependencies, Except.ok.injEq] at h
    subst h
    refine ⟨fun h => h, by simp, by simp, ?_, fun p hp => Or.inl hp⟩
    intro k d0 hk
    exact ⟨d0, hk, rfl⟩
  | cons dep rest ih =>
    intro m0 m h
    obtain ⟨hrest, hsame⟩ := mergeDependencies_cons_ok dep rest m0 m h
    obtain ⟨ih1, ih2, ih3, ih4, ih5⟩ := ih (mapSet m0 dep.Name dep) m hrest
    refine ⟨fun hnd => ih1 (nodup_keys_mapSet m0 dep.Name dep hnd), ?_, ?_, ?_, ?_⟩
    · intro n
      rw [ih2 n, mem_keys_mapSet]
      simp only [List.map_cons, List.mem_cons]
      tauto
    · intro d hd
      simp only [List.mem_cons] at hd
      rcases hd with hd | hd
      · subst hd
        exact ih4 d.Name d (mapGet_mapSet_self m0 d.Name d)
      · exact ih3 d hd
    · intro k d0 hk
      by_cases hkd : dep.Name = k
      · subst hkd
        obtain ⟨d1, hd1, hv⟩ := ih4 dep.Name dep (mapGet_mapSet_self m0 dep.Name dep)
        exact ⟨d1, hd1, by rw [hv, hsame d0 hk]⟩
      · apply ih4 k d0
        rw [mapGet_mapSet_ne m0 dep.Name k dep hkd]
        exact hk
    · intro p hp
      rcases ih5 p hp with h1 | h1
      · rcases mem_mapSet m0 dep.Name dep p h1 with h2 | h2
        · right
          rw [h2]
          simp
        · exact Or.inl h2
      · right
        exact ⟨List.mem_cons_of_mem _ h1.1, h1.2⟩

/-- What a failing merge loop returns: the conflict of the first entry whose required version
differs from the one stored under its name. -/
theorem mergeDependencies_error (deps : List LibraryDependencyStatus) :
    ∀ (m0 : List (String × LibraryDependencyStatus)) (e : Err),
      KeyedByName m0 → mergeDependencies deps m0 = .error e →
      ∃ pre dep post existing, deps = pre ++ dep :: post ∧
        (existing ∈ pre ∨ existing ∈ m0.map Prod.snd) ∧
        existing.Name = dep.Name ∧ existing.VersionRequired ≠ dep.VersionRequired ∧
        e = Err.LibraryDependenciesResolutionFailedError (Err.message
          (Text.twoDifferentVersions dep.Name dep.VersionRequired existing.VersionRequired)) := by
  induction deps with
  | nil =>
    intro m0 e _ h
    simp [mergeDependencies] at h
  | cons dep rest ih =>
    intro m0 e hkey h
    have hstep : ∀ e1, mergeDependencies rest (mapSet m0 dep.Name dep) = .error e1 →
        ∃ pre dep1 post existing, dep :: rest = pre ++ dep1 :: post ∧
          (existing ∈ pre ∨ existing ∈ m0.map Prod.snd) ∧
          existing.Name = dep1.Name ∧ existing.VersionRequired ≠ dep1.VersionRequired ∧
          e1 = Err.LibraryDependenciesResolutionFailedError (Err.message
            (Text.twoDifferentVersions dep1.Name dep1.VersionRequired
              existing.VersionRequired)) := by
      intro e1 h1
      obtain ⟨pre, dep1, post, existing, hsplit, hex, hn, hv, he⟩ :=
        ih (mapSet m0 dep.Name dep) e1 (keyedByName_mapSet m0 dep hkey) h1
      refine ⟨dep :: pre, dep1, post, existing, by simp [hsplit], ?_, hn, hv, he⟩
      rcases hex with hex | hex
      · exact Or.inl (List.mem_cons_of_mem _ hex)
      · obtain ⟨p, hp, hpe⟩ := List.mem_map.1 hex
        rcases mem_mapSet m0 dep.Name dep p hp with h2 | h2
        · left
          rw [← hpe, h2]
          simp
        · exact Or.inr (List.mem_map.2 ⟨p, h2, hpe⟩)
    unfold mergeDependencies at h
    split at h
    · rename_i existingDep hget
      split at h
      · rename_i hv
        simp only [Except.error.injEq] at h
        refine ⟨[], dep, rest, existingDep, rfl, Or.inr ?_, ?_, hv, h.symm⟩
        · exact List.mem_map.2 ⟨(dep.Name, existingDep), mem_of_mapGet m0 _ _ hget, rfl⟩
        · exact hkey (dep.Name, existingDep) (mem_of_mapGet m0 _ _ hget)
      · exact hstep e h
    · exact hstep e h

/-- A list with two entries of one name and different required versions makes the merge loop
fail. -/
theorem mergeDependencies_conflict (deps : List LibraryDependencyStatus)
    (d1 d2 : LibraryDependencyStatus) (h1 : d1 ∈ deps) (h2 : d2 ∈ deps)
    (hname : d1.Name = d2.Name) (hver : d1.VersionRequired ≠ d2.VersionRequired) :
    ∃ e, mergeDependencies deps [] = .error e := by
  cases hm : mergeDependencies deps [] with
  | error e => exact ⟨e, rfl⟩
  | ok m =>
    exfalso
    obtain ⟨_, _, h3, _, _⟩ := mergeDependencies_ok deps [] m hm
    obtain ⟨a, ha, hav⟩ := h3 d1 h1
    obtain ⟨b, hb, hbv⟩ := h3 d2 h2
    rw [hname, hb] at ha
    simp only [Option.some.injEq] at ha
    subst ha
    exact hver (by rw [← hav, hbv])

theorem Extends.refl (P : Event → Prop) (w : World) : Extends P w w :=
  ⟨[], by simp, by simp⟩

theorem Extends.same_trace (P : Event → Prop) (w w1 : World) (h : w1.trace = w.trace) :
    Extends P w w1 :=
  ⟨[], by simp [h], by simp⟩

theorem Extends.trans {P : Event → Prop} {w w1 w2 : World}
    (h1 : Extends P w w1) (h2 : Extends P w1 w2) : Extends P w w2 := by
  obtain ⟨a, ha, hPa⟩ := h1
  obtain ⟨b, hb, hPb⟩ := h2
  refine ⟨a ++ b, by rw [hb, ha, List.append_assoc], ?_⟩
  intro e he
  rcases List.mem_append.1 he with h | h
  · exact hPa e h
  · exact hPb e h

theorem Extends.mono {P Q : Event → Prop} {w w1 : World} (hPQ : ∀ e, P e → Q e)
    (h : Extends P w w1) : Extends Q w w1 := by
  obtain ⟨a, ha, hPa⟩ := h
  exact ⟨a, ha, fun e he => hPQ e (hPa e he)⟩

theorem Extends.emit {P : Event → Prop} (w : World) (e : Event) (h : P e) :
    Extends P w (w.emit e) :=
  ⟨[e], rfl, by simpa using h⟩

theorem Extends.forall {P : Event → Prop} {w w1 : World} (h : Extends P w w1)
    (hw : ∀ e ∈ w.trace, P e) : ∀ e ∈ w1.trace, P e := by
  obtain ⟨a, ha, hPa⟩ := h
  intro e he
  rw [ha] at he
  rcases List.mem_append.1 he with h1 | h1
  · exact hw e h1
  · exact hPa e h1

@[simp]
theorem World.emit_registry (w : World) (e : Event) : (w.emit e).registry = w.registry :=
  rfl

@[simp]
theorem World.emit_disk (w : World) (e : Event) : (w.emit e).disk = w.disk :=
  rfl

@[simp]
theorem World.emit_trace (w : World) (e : Event) : (w.emit e).trace = w.trace ++ [e] :=
  rfl

theorem planLoop_nil (env : Env) (noOverwrite : Bool) (loc : LibraryLocation)
    (plans : List (Release × LibraryInstallPlan)) (w : World) :
    planLoop env noOverwrite loc [] plans w = (w, .ok plans) := by
  rw [planLoop]

/-- One iteration of the planning loop, by verdict. -/
theorem planLoop_cons (env : Env) (noOverwrite : Bool) (loc : LibraryLocation)
    (lib : LibraryDependencyStatus) (rest : List LibraryDependencyStatus)
    (plans : List (Release × LibraryInstallPlan)) (w : World) :
    planLoop env noOverwrite loc (lib :: rest) plans w =
      match planStep env noOverwrite loc w.registry lib with
      | .fail err => (w, .error err)
      | .skip libRelease =>
        planLoop env noOverwrite loc rest plans (w.emit (alreadyInstalledEvent libRelease))
      | .add libRelease installTask =>
        planLoop env noOverwrite loc rest (mapSet plans libRelease installTask) w := by
  rw [planLoop, planStep]
  cases env.ParseVersion lib.VersionRequired with
  | error err => rfl
  | ok version =>
    simp only []
    cases env.FindRelease lib.Name version with
    | error err => rfl
    | ok libRelease =>
      simp only []
      cases env.InstallPrerequisiteCheck w.registry libRelease.Name libRelease.Version loc with
      | error err => rfl
      | ok installTask =>
        simp only []
        by_cases hup : installTask.UpToDate = true
        · simp only [hup, if_true]
          rfl
        · simp only [hup, if_false]
          cases noOverwrite <;> cases installTask.ReplacedLib <;> rfl

/-- The planning loop leaves the registry and the disk alone and only emits
already-installed notices. -/
theorem planLoop_world (env : Env) (noOverwrite : Bool) (loc : LibraryLocation)
    (l : List LibraryDependencyStatus) :
    ∀ (plans : List (Release × LibraryInstallPlan)) (w : World),
      (planLoop env noOverwrite loc l plans w).1.registry = w.registry ∧
      (planLoop env noOverwrite loc l plans w).1.disk = w.disk ∧
      Extends (fun e => ∃ r, e = alreadyInstalledEvent r) w
        (planLoop env noOverwrite loc l plans w).1 := by
  induction l with
  | nil =>
    intro plans w
    rw [planLoop_nil]
    exact ⟨rfl, rfl, Extends.refl _ _⟩
  | cons lib rest ih =>
    intro plans w
    rw [planLoop_cons]
    cases planStep env noOverwrite loc w.registry lib with
    | fail err => exact ⟨rfl, rfl, Extends.refl _ _⟩
    | skip libRelease =>
      obtain ⟨h1, h2, h3⟩ := ih plans (w.emit (alreadyInstalledEvent libRelease))
      exact ⟨h1, h2, Extends.trans (Extends.emit w _ ⟨libRelease, rfl⟩) h3⟩
    | add libRelease installTask => exact ih _ w

/-- The result of the planning loop depends on the state only through the registry. -/
theorem planLoop_result (env : Env) (noOverwrite : Bool) (loc : LibraryLocation)
    (l : List LibraryDependencyStatus) :
    ∀ (plans : List (Release × LibraryInstallPlan)) (w w1 : World),
      w.registry = w1.registry →
      (planLoop env noOverwrite loc l plans w).2 = (planLoop env noOverwrite loc l plans w1).2 := by
  induction l with
  | nil =>
    intro plans w w1 _
    simp [planLoop_nil]
  | cons lib rest ih =>
    intro plans w w1 hreg
    rw [planLoop_cons, planLoop_cons, hreg]
    cases planStep env noOverwrite loc w1.registry lib with
    | fail err => rfl
    | skip libRelease => exact ih _ _ _ (by simpa using hreg)
    | add libRelease installTask => exact ih _ _ _ hreg

/-- The planning loop over a concatenation: the second part runs from where the first ends. -/
theorem planLoop_append (env : Env) (noOverwrite : Bool) (loc : LibraryLocation)
    (pre post : List LibraryDependencyStatus) :
    ∀ (plans : List (Release × LibraryInstallPlan)) (w : World),
      planLoop env noOverwrite loc (pre ++ post) plans w =
        match planLoop env noOverwrite loc pre plans w with
        | (w1, .ok plans1) => planLoop env noOverwrite loc post plans1 w1
        | (w1, .error err) => (w1, .error err) := by
  induction pre with
  | nil =>
    intro plans w
    simp [planLoop_nil]
  | cons lib rest ih =>
    intro plans w
    rw [List.cons_append, planLoop_cons, planLoop_cons]
    cases planStep env noOverwrite loc w.registry lib with
    | fail err => rfl
    | skip libRelease => exact ih _ _
    | add libRelease installTask => exact ih _ _

theorem planStep_conflict (env : Env) (loc : LibraryLocation) (reg : Registry)
    (lib : LibraryDependencyStatus) (version : Version) (libRelease : Release)
    (installTask : LibraryInstallPlan) (replaced : Library)
    (hparse : env.ParseVersion lib.VersionRequired = .ok version)
    (hfind : env.FindRelease lib.Name version = .ok libRelease)
    (hcheck : env.InstallPrerequisiteCheck reg libRelease.Name libRelease.Version loc =
      .ok installTask)
    (hup : installTask.UpToDate = false) (hrep : installTask.ReplacedLib = some replaced) :
    planStep env true loc reg lib =
      .fail (Err.message (Text.differentVersionInstalled libRelease replaced)) := by
  simp [planStep, hparse, hfind, hcheck, hup, hrep]

theorem planStep_not_found (env : Env) (noOverwrite : Bool) (loc : LibraryLocation)
    (reg : Registry) (lib : LibraryDependencyStatus) (e : Err)
    (hbad : env.ParseVersion lib.VersionRequired = .error e ∨
      ∃ version, env.ParseVersion lib.VersionRequired = .ok version ∧
        env.FindRelease lib.Name version = .error e) :
    planStep env noOverwrite loc reg lib = .fail e := by
  rcases hbad with h | ⟨version, h1, h2⟩
  · simp [planStep, h]
  · simp [planStep, h1, h2]

/-- A requirement with a failing verdict makes the planning loop fail, wherever it stands in
the iteration order. -/
theorem planLoop_fails (env : Env) (noOverwrite : Bool) (loc : LibraryLocation)
    (lib : LibraryDependencyStatus) (e0 : Err) (l : List LibraryDependencyStatus) :
    ∀ (plans : List (Release × LibraryInstallPlan)) (w : World),
      lib ∈ l → planStep env noOverwrite loc w.registry lib = .fail e0 →
      ∃ e, (planLoop env noOverwrite loc l plans w).2 = .error e := by
  induction l with
  | nil =>
    intro plans w hmem
    simp at hmem
  | cons hd rest ih =>
    intro plans w hmem hfail
    rw [planLoop_cons]
    by_cases hhd : hd = lib
    · rw [hhd, hfail]
      exact ⟨e0, rfl⟩
    · have hrest : lib ∈ rest := by
        rcases List.mem_cons.1 hmem with h | h
        · exact absurd h.symm hhd
        · exact h
      cases planStep env noOverwrite loc w.registry hd with
      | fail err => exact ⟨err, rfl⟩
      | skip libRelease => exact ih _ _ hrest hfail
      | add libRelease installTask => exact ih _ _ hrest hfail

theorem installLibrary_uninstall_fails (env : Env) (libRelease : Release)
    (installTask : LibraryInstallPlan) (w : World) (err : Err)
    (h : (afterUninstall env installTask w.registry w.disk).2 = some err) :
    installLibrary env libRelease installTask w =
      ({ registry := (afterUninstall env installTask w.registry w.disk).1.1,
         disk := (afterUninstall env installTask w.registry w.disk).1.2,
         trace := w.trace ++ installPrologue libRelease installTask },
       some (Err.FailedLibraryInstallError (Err.couldNotRemoveOldLibrary err))) := by
  unfold afterUninstall at h
  unfold installLibrary afterUninstall installPrologue
  cases hrep : installTask.ReplacedLib with
  | none => simp [hrep] at h
  | some libReplaced =>
    rw [hrep] at h
    simp only [] at h
    simp [World.emit, h]

theorem installLibrary_install_fails (env : Env) (libRelease : Release)
    (installTask : LibraryInstallPlan) (w : World) (err : Err)
    (h : (afterUninstall env installTask w.registry w.disk).2 = none)
    (hinst : (env.ResourceInstall (afterUninstall env installTask w.registry w.disk).1.2
      libRelease (Path.Parent installTask.TargetPath) installTask.TargetPath).2 = some err) :
    installLibrary env libRelease installTask w =
      ({ registry := (afterUninstall env installTask w.registry w.disk).1.1,
         disk := (env.ResourceInstall (afterUninstall env installTask w.registry w.disk).1.2
           libRelease (Path.Parent installTask.TargetPath) installTask.TargetPath).1,
         trace := w.trace ++ installPrologue libRelease installTask ++
           [Event.install libRelease (Path.Parent installTask.TargetPath)
             installTask.TargetPath] },
       some (Err.FailedLibraryInstallError err)) := by
  unfold afterUninstall at h hinst
  unfold installLibrary afterUninstall installPrologue
  cases hrep : installTask.ReplacedLib with
  | none =>
    rw [hrep] at hinst
    simp only [] at hinst
    simp [World.emit, hinst]
  | some libReplaced =>
    rw [hrep] at h hinst
    simp only [] at h hinst
    simp [World.emit, h, hinst]

theorem installLibrary_ok (env : Env) (libRelease : Release)
    (installTask : LibraryInstallPlan) (w : World)
    (h : (afterUninstall env installTask w.registry w.disk).2 = none)
    (hinst : (env.ResourceInstall (afterUninstall env installTask w.registry w.disk).1.2
      libRelease (Path.Parent installTask.TargetPath) installTask.TargetPath).2 = none) :
    installLibrary env libRelease installTask w =
      ({ registry := (afterUninstall env installTask w.registry w.disk).1.1,
         disk := (env.ResourceInstall (afterUninstall env installTask w.registry w.disk).1.2
           libRelease (Path.Parent installTask.TargetPath) installTask.TargetPath).1,
         trace := w.trace ++ installPrologue libRelease installTask ++
           [Event.install libRelease (Path.Parent installTask.TargetPath)
              installTask.TargetPath,
            Event.task { Message := Text.installed libRelease, Completed := true }] },
       none) := by
  unfold afterUninstall at h hinst
  unfold installLibrary afterUninstall installPrologue
  cases hrep : installTask.ReplacedLib with
  | none =>
    rw [hrep] at hinst
    simp only [] at hinst
    simp [World.emit, hinst]
  | some libReplaced =>
    rw [hrep] at h hinst
    simp only [] at h hinst
    simp [World.emit, h, hinst]

theorem installPrologue_events (libRelease : Release) (installTask : LibraryInstallPlan) :
    ∀ e ∈ installPrologue libRelease installTask,
      InstallEvent libRelease installTask e := by
  intro e he
  unfold installPrologue at he
  cases hrep : installTask.ReplacedLib with
  | none =>
    rw [hrep] at he
    simp only [List.mem_singleton] at he
    exact Or.inl ⟨_, he⟩
  | some libReplaced =>
    rw [hrep] at he
    simp only [List.mem_cons, List.mem_singleton, List.not_mem_nil, or_false] at he
    rcases he with h | h | h
    · exact Or.inl ⟨_, h⟩
    · exact Or.inl ⟨_, h⟩
    · exact Or.inr (Or.inl ⟨_, h, hrep⟩)

theorem installLibrary_trace (env : Env) (libRelease : Release)
    (installTask : LibraryInstallPlan) (w : World) :
    Extends (InstallEvent libRelease installTask) w
      (installLibrary env libRelease installTask w).1 := by
  cases h : (afterUninstall env installTask w.registry w.disk).2 with
  | some err =>
    rw [installLibrary_uninstall_fails env libRelease installTask w err h]
    exact ⟨_, rfl, installPrologue_events libRelease installTask⟩
  | none =>
    cases hinst : (env.ResourceInstall (afterUninstall env installTask w.registry w.disk).1.2
      libRelease (Path.Parent installTask.TargetPath) installTask.TargetPath).2 with
    | some err =>
      rw [installLibrary_install_fails env libRelease installTask w err h hinst]
      refine ⟨_, List.append_assoc _ _ _, ?_⟩
      intro e he
      rcases List.mem_append.1 he with h1 | h1
      · exact installPrologue_events libRelease installTask e h1
      · simp only [List.mem_singleton] at h1
        exact Or.inr (Or.inr ⟨_, _, h1⟩)
    | none =>
      rw [installLibrary_ok env libRelease installTask w h hinst]
      refine ⟨_, List.append_assoc _ _ _, ?_⟩
      intro e he
      rcases List.mem_append.1 he with h1 | h1
      · exact installPrologue_events libRelease installTask e h1
      · simp only [List.mem_cons, List.mem_singleton, List.not_mem_nil, or_false] at h1
        rcases h1 with h2 | h2
        · exact Or.inr (Or.inr ⟨_, _, h2⟩)
        · exact Or.inl ⟨_, h2⟩

theorem executeLoop_nil (env : Env) (reqName : String) (loc : LibraryLocation) (w : World) :
    executeLoop env reqName loc [] w = (w, none) := by
  rw [executeLoop]

theorem executeLoop_cons (env : Env) (reqName : String) (loc : LibraryLocation)
    (libRelease : Release) (installTask : LibraryInstallPlan)
    (rest : List (Release × LibraryInstallPlan)) (w : World) :
    executeLoop env reqName loc ((libRelease, installTask) :: rest) w =
      match env.downloadLibrary libRelease
          (downloadReason reqName loc libRelease installTask) with
      | some err =>
        (w.emit (Event.download libRelease
          (downloadReason reqName loc libRelease installTask)), some err)
      | none =>
        match installLibrary env libRelease installTask (w.emit (Event.download libRelease
            (downloadReason reqName loc libRelease installTask))) with
        | (w2, some err) => (w2, some err)
        | (w2, none) => executeLoop env reqName loc rest w2 := by
  rw [executeLoop]

theorem executeLoop_trace (env : Env) (reqName : String) (loc : LibraryLocation)
    (l : List (Release × LibraryInstallPlan)) :
    ∀ w : World, Extends (ExecEvent reqName loc l) w (executeLoop env reqName loc l w).1 := by
  induction l with
  | nil =>
    intro w
    rw [executeLoop_nil]
    exact Extends.refl _ _
  | cons hd rest ih =>
    intro w
    obtain ⟨libRelease, installTask⟩ := hd
    rw [executeLoop_cons]
    have hdl : Extends (ExecEvent reqName loc ((libRelease, installTask) :: rest)) w
        (w.emit (Event.download libRelease
          (downloadReason reqName loc libRelease installTask))) :=
      Extends.emit w _ (Or.inr ⟨(libRelease, installTask), List.mem_cons_self _ _, Or.inl rfl⟩)
    have hinst := installLibrary_trace env libRelease installTask
      (w.emit (Event.download libRelease (downloadReason reqName loc libRelease installTask)))
    have hinst1 : Extends (ExecEvent reqName loc ((libRelease, installTask) :: rest))
        (w.emit (Event.download libRelease (downloadReason reqName loc libRelease installTask)))
        (installLibrary env libRelease installTask (w.emit (Event.download libRelease
          (downloadReason reqName loc libRelease installTask)))).1 := by
      refine Extends.mono ?_ hinst
      intro e he
      rcases he with h | h | h
      · exact Or.inl h
      · exact Or.inr ⟨(libRelease, installTask), List.mem_cons_self _ _, Or.inr (Or.inl h)⟩
      · exact Or.inr ⟨(libRelease, installTask), List.mem_cons_self _ _, Or.inr (Or.inr h)⟩
    cases env.downloadLibrary libRelease (downloadReason reqName loc libRelease installTask) with
    | some err => exact hdl
    | none =>
      simp only []
      rcases hres : installLibrary env libRelease installTask (w.emit (Event.download libRelease
          (downloadReason reqName loc libRelease installTask))) with ⟨w2, r⟩
      rw [hres] at hinst1
      cases r with
      | some err => exact Extends.trans hdl hinst1
      | none =>
        simp only []
        refine Extends.trans hdl (Extends.trans hinst1 ?_)
        refine Extends.mono ?_ (ih w2)
        intro e he
        rcases he with h | ⟨rt, hrt, h⟩
        · exact Or.inl h
        · exact Or.inr ⟨rt, List.mem_cons_of_mem _ hrt, h⟩

theorem buildToInstall_noDeps (env : Env) (req : LibraryInstallRequest) (w : World)
    (h : req.NoDeps = true) :
    buildToInstall env req w =
      (w, .ok [(req.Name, { Name := req.Name, VersionRequired := req.Version })]) := by
  simp [buildToInstall, h, mapSet]

theorem buildToInstall_world (env : Env) (req : LibraryInstallRequest) (w : World) :
    (buildToInstall env req w).1.registry = w.registry ∧
      (buildToInstall env req w).1.disk = w.disk ∧
      Extends (BuildEvent req) w (buildToInstall env req w).1 := by
  unfold buildToInstall
  cases hnd : req.NoDeps with
  | true => exact ⟨rfl, rfl, Extends.refl _ _⟩
  | false =>
    simp only [Bool.false_eq_true, if_false]
    cases env.GetLibraryManagerExplorer with
    | some err => exact ⟨rfl, rfl, Extends.refl _ _⟩
    | none =>
      simp only []
      have hext : Extends (BuildEvent req) w
          (((w.emit (Event.acquire Lease.libraryExplorer)).emit
            (Event.resolve req.Name req.Version req.NoOverwrite)).emit
              (Event.release Lease.libraryExplorer)) :=
        Extends.trans (Extends.trans (Extends.emit w _ ⟨hnd, Or.inl rfl⟩)
          (Extends.emit _ _ ⟨hnd, Or.inr (Or.inr rfl)⟩))
          (Extends.emit _ _ ⟨hnd, Or.inr (Or.inl rfl)⟩)
      cases env.libraryResolveDependencies w.registry req.Name req.Version req.NoOverwrite with
      | error err => exact ⟨rfl, rfl, hext⟩
      | ok deps => exact ⟨rfl, rfl, hext⟩

/-- The requirement set depends on the state only through the registry. -/
theorem buildToInstall_result (env : Env) (req : LibraryInstallRequest) (w w1 : World)
    (h : w.registry = w1.registry) :
    (buildToInstall env req w).2 = (buildToInstall env req w1).2 := by
  unfold buildToInstall
  rw [h]
  cases req.NoDeps with
  | true => rfl
  | false =>
    simp only [Bool.false_eq_true, if_false]
    cases env.GetLibraryManagerExplorer with
    | some err => rfl
    | none =>
      simp only []
      cases env.libraryResolveDependencies w1.registry req.Name req.Version req.NoOverwrite with
      | error err => rfl
      | ok deps => rfl

theorem mem_visitOrder (env : Env) (toInstall : List (String × LibraryDependencyStatus))
    (lib : LibraryDependencyStatus) :
    lib ∈ visitOrder env toInstall ↔ lib ∈ toInstall.map Prod.snd := by
  unfold visitOrder
  exact ((env.rangeToInstall_perm toInstall).map Prod.snd).mem_iff

theorem installWithLease_planning_error (env : Env) (req : LibraryInstallRequest)
    (toInstall : List (String × LibraryDependencyStatus)) (w : World) (e : Err)
    (h : (planLoop env req.NoOverwrite (env.FromRPCLibraryInstallLocation req.InstallLocation)
      (visitOrder env toInstall) [] w).2 = .error e) :
    installWithLease env req toInstall w =
      ((planLoop env req.NoOverwrite (env.FromRPCLibraryInstallLocation req.InstallLocation)
        (visitOrder env toInstall) [] w).1, some e) := by
  unfold installWithLease
  unfold visitOrder at h
  rcases hp : planLoop env req.NoOverwrite
    (env.FromRPCLibraryInstallLocation req.InstallLocation)
    ((env.rangeToInstall toInstall).map Prod.snd) [] w with ⟨w1, r⟩
  rw [hp] at h
  simp only [] at h
  subst h
  simp [visitOrder, hp]

theorem installWithLease_trace (env : Env) (req : LibraryInstallRequest)
    (toInstall : List (String × LibraryDependencyStatus)) (w : World) :
    Extends (LockedEvent env req toInstall w.registry w.disk) w
      (installWithLease env req toInstall w).1 := by
  have hplan := planLoop_world env req.NoOverwrite
    (env.FromRPCLibraryInstallLocation req.InstallLocation) (visitOrder env toInstall) [] w
  have hres := planLoop_result env req.NoOverwrite
    (env.FromRPCLibraryInstallLocation req.InstallLocation) (visitOrder env toInstall) [] w
    { registry := w.registry, disk := w.disk, trace := [] } rfl
  unfold installWithLease
  unfold visitOrder at hplan hres
  dsimp only
  rcases hp : planLoop env req.NoOverwrite
    (env.FromRPCLibraryInstallLocation req.InstallLocation)
    ((env.rangeToInstall toInstall).map Prod.snd) [] w with ⟨w1, r⟩
  rw [hp] at hplan hres
  simp only [] at hplan hres
  have h1 : Extends (LockedEvent env req toInstall w.registry w.disk) w w1 := by
    refine Extends.mono ?_ hplan.2.2
    rintro e ⟨r1, rfl⟩
    exact Or.inl ⟨_, rfl⟩
  cases r with
  | error err => exact h1
  | ok plans =>
    simp only []
    have hx := executeLoop_trace env req.Name
      (env.FromRPCLibraryInstallLocation req.InstallLocation)
      (env.rangeLibReleasesToInstall plans) w1
    have h2 : Extends (LockedEvent env req toInstall w.registry w.disk) w1
        (executeLoop env req.Name (env.FromRPCLibraryInstallLocation req.InstallLocation)
          (env.rangeLibReleasesToInstall plans) w1).1 := by
      refine Extends.mono ?_ hx
      intro e he
      rcases he with h | ⟨rt, hrt, h⟩
      · exact Or.inl h
      · refine Or.inr (Or.inr ⟨plans, ?_, rt, ?_, h⟩)
        · unfold visitOrder
          exact hres.symm
        · exact (env.rangeLibReleasesToInstall_perm plans).mem_iff.1 hrt
    rcases hxe : executeLoop env req.Name
      (env.FromRPCLibraryInstallLocation req.InstallLocation)
      (env.rangeLibReleasesToInstall plans) w1 with ⟨w2, rx⟩
    rw [hxe] at h2
    cases rx with
    | some err => exact Extends.trans h1 h2
    | none =>
      simp only []
      refine Extends.trans h1 (Extends.trans h2 ?_)
      exact ⟨[Event.init], rfl, by simp [LockedEvent]⟩

theorem LibraryInstall_trace (env : Env) (req : LibraryInstallRequest) (reg : Registry)
    (disk : Disk) :
    ∀ e ∈ (LibraryInstall env req reg disk).world.trace, RunEvent env req reg disk e := by
  have hbuild := buildToInstall_world env req { registry := reg, disk := disk, trace := [] }
  suffices h : Extends (RunEvent env req reg disk) { registry := reg, disk := disk, trace := [] }
      (LibraryInstall env req reg disk).world by
    exact h.forall (by simp)
  unfold LibraryInstall
  cases env.GetLibrariesIndex with
  | some err => exact Extends.refl _ _
  | none =>
    simp only []
    rcases hb : buildToInstall env req { registry := reg, disk := disk, trace := [] } with ⟨w1, r⟩
    rw [hb] at hbuild
    simp only [] at hbuild
    have h1 : Extends (RunEvent env req reg disk) { registry := reg, disk := disk, trace := [] } w1 :=
      Extends.mono (fun e he => Or.inl he) hbuild.2.2
    cases r with
    | error err => exact h1
    | ok toInstall =>
      simp only []
      cases env.GetPackageManagerExplorer with
      | some err => exact h1
      | none =>
        simp only []
        have h2 : Extends (RunEvent env req reg disk) { registry := reg, disk := disk, trace := [] }
            ((w1.emit (Event.acquire Lease.packageExplorer)).emit
              (Event.release Lease.packageExplorer)) :=
          Extends.trans (Extends.trans h1 (Extends.emit _ _ (Or.inr (Or.inl rfl))))
            (Extends.emit _ _ (Or.inr (Or.inr (Or.inl rfl))))
        cases env.GetLibraryManagerInstaller with
        | some err => exact h2
        | none =>
          simp only []
          have h3 := Extends.trans h2 (Extends.emit
            ((w1.emit (Event.acquire Lease.packageExplorer)).emit
              (Event.release Lease.packageExplorer)) (Event.acquire Lease.libraryInstaller)
            (Or.inr (Or.inr (Or.inr (Or.inl rfl)))))
          have h4 := installWithLease_trace env req toInstall
            (((w1.emit (Event.acquire Lease.packageExplorer)).emit
              (Event.release Lease.packageExplorer)).emit
                (Event.acquire Lease.libraryInstaller))
          simp only [World.emit_registry, World.emit_disk, hbuild.1, hbuild.2.1] at h4
          refine Extends.trans (Extends.trans h3 (Extends.mono ?_ h4))
            (Extends.emit _ _ (Or.inr (Or.inr (Or.inr (Or.inr (Or.inl rfl))))))
          intro e he
          refine Or.inr (Or.inr (Or.inr (Or.inr (Or.inr ⟨toInstall, ?_, he⟩))))
          rw [hb]

/-- When planning fails, `LibraryInstall` fails and the registry is the one it started with. -/
theorem LibraryInstall_planning_error (env : Env) (req : LibraryInstallRequest)
    (reg : Registry) (disk : Disk) (toInstall : List (String × LibraryDependencyStatus)) (e1 : Err)
    (hbuild : (buildToInstall env req { registry := reg, disk := disk, trace := [] }).2 = .ok toInstall)
    (hplan : (planLoop env req.NoOverwrite
      (env.FromRPCLibraryInstallLocation req.InstallLocation) (visitOrder env toInstall) []
      { registry := reg, disk := disk, trace := [] }).2 = .error e1) :
    (∃ e, (LibraryInstall env req reg disk).err = some e) ∧
      ((LibraryInstall env req reg disk).world.registry = reg ∧
        (LibraryInstall env req reg disk).world.disk = disk) ∧
      (env.GetLibrariesIndex = none → env.GetPackageManagerExplorer = none →
        env.GetLibraryManagerInstaller = none → (LibraryInstall env req reg disk).err = some e1) := by
  have hbw := buildToInstall_world env req { registry := reg, disk := disk, trace := [] }
  unfold LibraryInstall
  cases env.GetLibrariesIndex with
  | some err => exact ⟨⟨err, rfl⟩, ⟨rfl, rfl⟩, by simp⟩
  | none =>
    simp only []
    rcases hb : buildToInstall env req { registry := reg, disk := disk, trace := [] } with ⟨w1, r⟩
    rw [hb] at hbuild hbw
    simp only [] at hbuild hbw
    subst hbuild
    simp only []
    cases env.GetPackageManagerExplorer with
    | some err => exact ⟨⟨err, rfl⟩, ⟨hbw.1, hbw.2.1⟩, by simp⟩
    | none =>
      simp only []
      cases env.GetLibraryManagerInstaller with
      | some err => exact ⟨⟨err, rfl⟩, ⟨hbw.1, hbw.2.1⟩, by simp⟩
      | none =>
        simp only []
        have hplan1 : (planLoop env req.NoOverwrite
            (env.FromRPCLibraryInstallLocation req.InstallLocation) (visitOrder env toInstall) []
            (((w1.emit (Event.acquire Lease.packageExplorer)).emit
              (Event.release Lease.packageExplorer)).emit
                (Event.acquire Lease.libraryInstaller))).2 = .error e1 := by
          rw [← hplan]
          exact planLoop_result _ _ _ _ _ _ _ (by simpa using hbw.1)
        rw [installWithLease_planning_error env req toInstall _ e1 hplan1]
        refine ⟨⟨e1, rfl⟩, ⟨?_, ?_⟩, fun _ _ _ => rfl⟩
        · simp only [World.emit_registry]
          rw [(planLoop_world _ _ _ _ _ _).1]
          simpa using hbw.1
        · simp only [World.emit_disk]
          rw [(planLoop_world _ _ _ _ _ _).2.1]
          simpa using hbw.2.1

/-- C1. With dependencies enabled, when the list returned by the resolver contains two
entries with the same library name and different required versions, `LibraryInstall` fails
with a `LibraryDependenciesResolutionFailedError` whose message names the library and both
required versions of two such entries of the list (the conflict the merge loop meets first),
no download, uninstall or install is performed, and the registry and the disk are
unchanged. -/
theorem LibraryInstall_conflicting_versions (env : Env) (req : LibraryInstallRequest)
    (reg : Registry) (disk : Disk) (deps : List LibraryDependencyStatus) (d1 d2 : LibraryDependencyStatus)
    (hidx : env.GetLibrariesIndex = none) (hdeps : req.NoDeps = false)
    (hlme : env.GetLibraryManagerExplorer = none)
    (hres : env.libraryResolveDependencies reg req.Name req.Version req.NoOverwrite = .ok deps)
    (h1 : d1 ∈ deps) (h2 : d2 ∈ deps) (hname : d1.Name = d2.Name)
    (hver : d1.VersionRequired ≠ d2.VersionRequired) :
    (∃ pre dep post existing, deps = pre ++ dep :: post ∧ existing ∈ pre ∧
      existing.Name = dep.Name ∧ existing.VersionRequired ≠ dep.VersionRequired ∧
      (LibraryInstall env req reg disk).err =
        some (Err.LibraryDependenciesResolutionFailedError (Err.message
          (Text.twoDifferentVersions dep.Name dep.VersionRequired
            existing.VersionRequired)))) ∧
    (∀ e ∈ (LibraryInstall env req reg disk).world.trace, e.isInstallWork = false) ∧
    (LibraryInstall env req reg disk).world.registry = reg ∧
    (LibraryInstall env req reg disk).world.disk = disk := by
  obtain ⟨e, he⟩ := mergeDependencies_conflict deps d1 d2 h1 h2 hname hver
  obtain ⟨pre, dep, post, existing, hsplit, hex, hn, hv, hmsg⟩ :=
    mergeDependencies_error deps [] e (by intro p hp; simp at hp) he
  have hrun : LibraryInstall env req reg disk =
      { world := { registry := reg,
                   disk := disk,
                   trace := [Event.acquire Lease.libraryExplorer,
                             Event.resolve req.Name req.Version req.NoOverwrite,
                             Event.release Lease.libraryExplorer] },
        err := some e } := by
    simp [LibraryInstall, hidx, buildToInstall, hdeps, hlme, hres, he, World.emit]
  rw [hrun]
  refine ⟨⟨pre, dep, post, existing, hsplit, ?_, hn, hv, by rw [hmsg]⟩, ?_, rfl, rfl⟩
  · rcases hex with h | h
    · exact h
    · simp at h
  · intro ev hev
    simp only [List.mem_cons, List.mem_singleton, List.not_mem_nil, or_false] at hev
    rcases hev with h | h | h <;> rw [h] <;> rfl

/-- The resolver reports A at versions 1 and 2: the call fails on that conflict and touches nothing. -/
theorem LibraryInstall_conflicting_versions_witness :
    (LibraryInstall conflictEnv reqA2 [libA1] [libA1]).err =
        some (Err.LibraryDependenciesResolutionFailedError (Err.message
          (Text.twoDifferentVersions "A" "2" "1"))) ∧
      (∀ e ∈ (LibraryInstall conflictEnv reqA2 [libA1] [libA1]).world.trace,
        e.isInstallWork = false) ∧
      (LibraryInstall conflictEnv reqA2 [libA1] [libA1]).world.registry = [libA1] ∧
      (LibraryInstall conflictEnv reqA2 [libA1] [libA1]).world.disk = [libA1] :=
  ⟨by decide,
   (LibraryInstall_conflicting_versions conflictEnv reqA2 [libA1] [libA1]
    [{ Name := "A", VersionRequired := "1" }, { Name := "B", VersionRequired := "1" },
     { Name := "A", VersionRequired := "2" }]
    { Name := "A", VersionRequired := "1" } { Name := "A", VersionRequired := "2" }
    rfl rfl rfl rfl (by decide) (by decide) rfl (by decide)).2⟩

/-- C9. When the merge loop of `LibraryInstall` does not fail, the requirement map has
exactly one entry per distinct library name of the list (its keys are without repetition and
are the names of the list), every entry of the list finds under its name a requirement with
its own required version, and every requirement of the map is an entry of the list stored
under its name. -/
theorem mergeDependencies_one_per_name (deps : List LibraryDependencyStatus)
    (m : List (String × LibraryDependencyStatus))
    (h : mergeDependencies deps [] = .ok m) :
    (m.map Prod.fst).Nodup ∧
    (∀ n, n ∈ m.map Prod.fst ↔ n ∈ deps.map (fun d => d.Name)) ∧
    (∀ d ∈ deps, ∃ d1, mapGet m d.Name = some d1 ∧ d1.VersionRequired = d.VersionRequired) ∧
    (∀ p ∈ m, p.2 ∈ deps ∧ p.2.Name = p.1) := by
  obtain ⟨h1, h2, h3, _, h5⟩ := mergeDependencies_ok deps [] m h
  refine ⟨h1 (by simp), ?_, h3, ?_⟩
  · intro n
    rw [h2 n]
    simp
  · intro p hp
    rcases h5 p hp with h6 | h6
    · simp at h6
    · exact h6

/-- A list naming A twice at the same version merges into one entry for A and one for B. -/
theorem mergeDependencies_one_per_name_witness :
    (([("A", ({ Name := "A", VersionRequired := "2" } : LibraryDependencyStatus)),
       ("B", { Name := "B", VersionRequired := "1" })] :
        List (String × LibraryDependencyStatus)).map Prod.fst).Nodup :=
  (mergeDependencies_one_per_name
    [{ Name := "A", VersionRequired := "2" }, { Name := "B", VersionRequired := "1" },
     { Name := "A", VersionRequired := "2" }]
    [("A", { Name := "A", VersionRequired := "2" }), ("B", { Name := "B", VersionRequired := "1" })]
    rfl).1

/-- The new events of `installLibrary` when the uninstall of the replaced library fails. -/
theorem installLibrary_after_failed_uninstall (env : Env) (libRelease : Release)
    (installTask : LibraryInstallPlan) (w : World) (libReplaced : Library) (err : Err)
    (hrep : installTask.ReplacedLib = some libReplaced)
    (hun : (env.Uninstall w.registry w.disk libReplaced).2 = some err) :
    installLibrary env libRelease installTask w =
      ({ registry := (env.Uninstall w.registry w.disk libReplaced).1.1,
         disk := (env.Uninstall w.registry w.disk libReplaced).1.2,
         trace := w.trace ++
           [Event.task { Name := Text.installing libRelease },
            Event.task { Message := Text.replacing libReplaced libRelease },
            Event.uninstall libRelease libReplaced] },
       some (Err.FailedLibraryInstallError (Err.couldNotRemoveOldLibrary err))) := by
  have h := installLibrary_uninstall_fails env libRelease installTask w err
    (by simpa [afterUninstall, hrep] using hun)
  simpa [afterUninstall, installPrologue, hrep] using h

/-- C4. For a plan entry with a replaced library, `installLibrary` calls the uninstall of the
replaced library first. If it fails, the result is a `FailedLibraryInstallError`, and after
the uninstall call nothing more happens: no resource install, no completed event, and the
state is the one the uninstall left. If it succeeds, the resource install is the very next
event and runs on the disk the uninstall left. -/
theorem installLibrary_uninstalls_before_install (env : Env) (libRelease : Release)
    (installTask : LibraryInstallPlan) (w : World) (libReplaced : Library)
    (hrep : installTask.ReplacedLib = some libReplaced) :
    (∀ err, (env.Uninstall w.registry w.disk libReplaced).2 = some err →
      (installLibrary env libRelease installTask w).2 =
          some (Err.FailedLibraryInstallError (Err.couldNotRemoveOldLibrary err)) ∧
        (installLibrary env libRelease installTask w).1.trace = w.trace ++
          [Event.task { Name := Text.installing libRelease },
           Event.task { Message := Text.replacing libReplaced libRelease },
           Event.uninstall libRelease libReplaced] ∧
        (installLibrary env libRelease installTask w).1.registry =
          (env.Uninstall w.registry w.disk libReplaced).1.1 ∧
        (installLibrary env libRelease installTask w).1.disk =
          (env.Uninstall w.registry w.disk libReplaced).1.2) ∧
    ((env.Uninstall w.registry w.disk libReplaced).2 = none →
      (∃ rest, (installLibrary env libRelease installTask w).1.trace = w.trace ++
        [Event.task { Name := Text.installing libRelease },
         Event.task { Message := Text.replacing libReplaced libRelease },
         Event.uninstall libRelease libReplaced,
         Event.install libRelease (Path.Parent installTask.TargetPath)
           installTask.TargetPath] ++ rest) ∧
      (installLibrary env libRelease installTask w).1.disk =
        (env.ResourceInstall (env.Uninstall w.registry w.disk libReplaced).1.2 libRelease
          (Path.Parent installTask.TargetPath) installTask.TargetPath).1) := by
  constructor
  · intro err hun
    rw [installLibrary_after_failed_uninstall env libRelease installTask w libReplaced err
      hrep hun]
    exact ⟨rfl, rfl, rfl, rfl⟩
  · intro hun
    have hun1 : (afterUninstall env installTask w.registry w.disk).2 = none := by
      simpa [afterUninstall, hrep] using hun
    have hreg : (afterUninstall env installTask w.registry w.disk).1 =
        (env.Uninstall w.registry w.disk libReplaced).1 := by
      simp [afterUninstall, hrep]
    have hpro : installPrologue libRelease installTask =
        [Event.task { Name := Text.installing libRelease },
         Event.task { Message := Text.replacing libReplaced libRelease },
         Event.uninstall libRelease libReplaced] := by
      simp [installPrologue, hrep]
    cases hinst : (env.ResourceInstall (afterUninstall env installTask w.registry w.disk).1.2
      libRelease (Path.Parent installTask.TargetPath) installTask.TargetPath).2 with
    | some err =>
      rw [installLibrary_install_fails env libRelease installTask w err hun1 hinst, hpro, hreg]
      exact ⟨⟨[], by simp⟩, rfl⟩
    | none =>
      rw [installLibrary_ok env libRelease installTask w hun1 hinst, hpro, hreg]
      exact ⟨⟨[Event.task { Message := Text.installed libRelease, Completed := true }],
        by simp⟩, rfl⟩

/-- Replacing A 1 where the uninstall fails: the call stops right after the uninstall. -/
theorem installLibrary_uninstalls_before_install_witness :
    planReplaceA1.ReplacedLib = some libA1 ∧
      (installLibrary stuckEnv relA2 planReplaceA1
        { registry := [libA1], disk := [libA1], trace := [] }).2 =
        some (Err.FailedLibraryInstallError
          (Err.couldNotRemoveOldLibrary (Err.upstream 4))) ∧
      (installLibrary stuckEnv relA2 planReplaceA1
        { registry := [libA1], disk := [libA1], trace := [] }).1.trace =
        [] ++
        [Event.task { Name := Text.installing relA2 },
         Event.task { Message := Text.replacing libA1 relA2 },
         Event.uninstall relA2 libA1] ∧
      (installLibrary stuckEnv relA2 planReplaceA1
        { registry := [libA1], disk := [libA1], trace := [] }).1.registry = [libA1] ∧
      (installLibrary stuckEnv relA2 planReplaceA1
        { registry := [libA1], disk := [libA1], trace := [] }).1.disk = [libA1] :=
  ⟨rfl, (installLibrary_uninstalls_before_install stuckEnv relA2 planReplaceA1
    { registry := [libA1], disk := [libA1], trace := [] } libA1 rfl).1 (Err.upstream 4) rfl⟩

/-- When planning fails, the trace of `LibraryInstall` has no download, uninstall or install. -/
theorem LibraryInstall_no_work_of_planning_error (env : Env) (req : LibraryInstallRequest)
    (reg : Registry) (disk : Disk) (toInstall : List (String × LibraryDependencyStatus)) (e1 : Err)
    (hbuild : (buildToInstall env req { registry := reg, disk := disk, trace := [] }).2 = .ok toInstall)
    (hplan : (planLoop env req.NoOverwrite
      (env.FromRPCLibraryInstallLocation req.InstallLocation) (visitOrder env toInstall) []
      { registry := reg, disk := disk, trace := [] }).2 = .error e1) :
    ∀ e ∈ (LibraryInstall env req reg disk).world.trace, e.isInstallWork = false := by
  intro e he
  rcases LibraryInstall_trace env req reg disk e he with hb | hp | hp | hp | hp | hl
  · rcases hb.2 with h | h | h <;> rw [h] <;> rfl
  · rw [hp]; rfl
  · rw [hp]; rfl
  · rw [hp]; rfl
  · rw [hp]; rfl
  · obtain ⟨m, hm, hl1 | hl1 | ⟨plans, hplans, _⟩⟩ := hl
    · obtain ⟨p, hp⟩ := hl1
      rw [hp]; rfl
    · rw [hl1]; rfl
    · rw [hbuild] at hm
      simp only [Except.ok.injEq] at hm
      subst hm
      rw [hplan] at hplans
      simp at hplans

/-- C3. With no-overwrite set, when the prerequisite check of one requirement of the set
reports a replaced library and not up to date, `LibraryInstall` returns an error, no
download, uninstall or install is performed, and the registry and the disk are unchanged,
whatever the order in which the requirements are visited. -/
theorem LibraryInstall_noOverwrite_rejects_batch (env : Env) (req : LibraryInstallRequest)
    (reg : Registry) (disk : Disk) (toInstall : List (String × LibraryDependencyStatus))
    (lib : LibraryDependencyStatus) (version : Version) (libRelease : Release)
    (installTask : LibraryInstallPlan) (replaced : Library)
    (hbuild : (buildToInstall env req { registry := reg, disk := disk, trace := [] }).2 = .ok toInstall)
    (hmem : lib ∈ toInstall.map Prod.snd)
    (hnov : req.NoOverwrite = true)
    (hparse : env.ParseVersion lib.VersionRequired = .ok version)
    (hfind : env.FindRelease lib.Name version = .ok libRelease)
    (hcheck : env.InstallPrerequisiteCheck reg libRelease.Name libRelease.Version
      (env.FromRPCLibraryInstallLocation req.InstallLocation) = .ok installTask)
    (hup : installTask.UpToDate = false) (hrep : installTask.ReplacedLib = some replaced) :
    (∃ e, (LibraryInstall env req reg disk).err = some e) ∧
    (∀ e ∈ (LibraryInstall env req reg disk).world.trace, e.isInstallWork = false) ∧
    (LibraryInstall env req reg disk).world.registry = reg ∧
    (LibraryInstall env req reg disk).world.disk = disk := by
  have hstep := planStep_conflict env (env.FromRPCLibraryInstallLocation req.InstallLocation)
    reg lib version libRelease installTask replaced hparse hfind hcheck hup hrep
  obtain ⟨e1, he1⟩ := planLoop_fails env req.NoOverwrite
    (env.FromRPCLibraryInstallLocation req.InstallLocation) lib _ (visitOrder env toInstall) []
    { registry := reg, disk := disk, trace := [] } ((mem_visitOrder env toInstall lib).2 hmem)
    (by rw [hnov]; exact hstep)
  obtain ⟨h1, h2, _⟩ := LibraryInstall_planning_error env req reg disk toInstall e1 hbuild he1
  exact ⟨h1, LibraryInstall_no_work_of_planning_error env req reg disk toInstall e1 hbuild he1, h2⟩

/-- A 2 requested under no-overwrite over an installed A 1: the batch is rejected untouched. -/
theorem LibraryInstall_noOverwrite_rejects_batch_witness :
    reqA2NoOverwrite.NoOverwrite = true ∧
      (∃ e, (LibraryInstall sampleEnv reqA2NoOverwrite [libA1] [libA1]).err = some e) ∧
      (∀ e ∈ (LibraryInstall sampleEnv reqA2NoOverwrite [libA1] [libA1]).world.trace,
        e.isInstallWork = false) ∧
      (LibraryInstall sampleEnv reqA2NoOverwrite [libA1] [libA1]).world.registry = [libA1] ∧
      (LibraryInstall sampleEnv reqA2NoOverwrite [libA1] [libA1]).world.disk = [libA1] :=
  ⟨rfl, LibraryInstall_noOverwrite_rejects_batch sampleEnv reqA2NoOverwrite [libA1] [libA1]
    [("A", { Name := "A", VersionRequired := "2" }),
     ("B", { Name := "B", VersionRequired := "1" })]
    { Name := "A", VersionRequired := "2" } (some "2") relA2 planReplaceA1 libA1
    rfl (by decide) rfl rfl rfl rfl rfl rfl⟩

/-- C7, as the code has it. When the required version of a requirement of the set does not
parse, or the catalog has no release for its name and version, the planning loop returns
that error as soon as it visits the requirement, with nothing emitted and nothing added to
the plan; `LibraryInstall` returns an error, performs no download, uninstall or install and
leaves the registry and the disk unchanged; and the error it returns is that one whenever
the leases are granted and the requirements visited before it pass planning. -/
theorem LibraryInstall_not_found_is_returned (env : Env) (req : LibraryInstallRequest)
    (reg : Registry) (disk : Disk) (toInstall : List (String × LibraryDependencyStatus))
    (lib : LibraryDependencyStatus) (e : Err)
    (hbuild : (buildToInstall env req { registry := reg, disk := disk, trace := [] }).2 =
      .ok toInstall)
    (hmem : lib ∈ toInstall.map Prod.snd)
    (hbad : env.ParseVersion lib.VersionRequired = .error e ∨
      ∃ version, env.ParseVersion lib.VersionRequired = .ok version ∧
        env.FindRelease lib.Name version = .error e) :
    (∀ noOverwrite loc post plans w,
      planLoop env noOverwrite loc (lib :: post) plans w = (w, .error e)) ∧
    (∃ e1, (LibraryInstall env req reg disk).err = some e1) ∧
    (∀ ev ∈ (LibraryInstall env req reg disk).world.trace, ev.isInstallWork = false) ∧
    ((LibraryInstall env req reg disk).world.registry = reg ∧
      (LibraryInstall env req reg disk).world.disk = disk) ∧
    (env.GetLibrariesIndex = none → env.GetPackageManagerExplorer = none →
      env.GetLibraryManagerInstaller = none →
      ∀ pre post plans, visitOrder env toInstall = pre ++ lib :: post →
        (planLoop env req.NoOverwrite (env.FromRPCLibraryInstallLocation req.InstallLocation)
          pre [] { registry := reg, disk := disk, trace := [] }).2 = .ok plans →
        (LibraryInstall env req reg disk).err = some e) := by
  have hstep : ∀ noOverwrite loc reg1, planStep env noOverwrite loc reg1 lib = .fail e :=
    fun noOverwrite loc reg1 => planStep_not_found env noOverwrite loc reg1 lib e hbad
  obtain ⟨e1, he1⟩ := planLoop_fails env req.NoOverwrite
    (env.FromRPCLibraryInstallLocation req.InstallLocation) lib e (visitOrder env toInstall) []
    { registry := reg, disk := disk, trace := [] } ((mem_visitOrder env toInstall lib).2 hmem)
    (hstep _ _ _)
  obtain ⟨h1, h2, _⟩ := LibraryInstall_planning_error env req reg disk toInstall e1 hbuild he1
  refine ⟨?_, h1,
    LibraryInstall_no_work_of_planning_error env req reg disk toInstall e1 hbuild he1, h2, ?_⟩
  · intro noOverwrite loc post plans w
    rw [planLoop_cons, hstep]
  · intro hidx hpme hlmi pre post plans hsplit hpre
    have hfull : (planLoop env req.NoOverwrite
        (env.FromRPCLibraryInstallLocation req.InstallLocation) (visitOrder env toInstall) []
        { registry := reg, disk := disk, trace := [] }).2 = .error e := by
      rw [hsplit, planLoop_append]
      rcases hp : planLoop env req.NoOverwrite
        (env.FromRPCLibraryInstallLocation req.InstallLocation) pre []
        { registry := reg, disk := disk, trace := [] } with ⟨w1, r⟩
      rw [hp] at hpre
      simp only [] at hpre
      subst hpre
      simp only []
      rw [planLoop_cons, hstep]
    exact (LibraryInstall_planning_error env req reg disk toInstall e hbuild hfull).2.2
      hidx hpme hlmi

/-- C7 refuted as stated. With no-overwrite set and A 1 installed, the requirement set holds
C 7, which the catalog does not have, and A 2. Visiting A first, `LibraryInstall` returns
the different-version error of A and never the not-found error of C; visiting C first, it
returns the not-found error. -/
theorem not_found_error_can_be_preceded :
    (buildToInstall missingDepEnvReversed reqA2NoOverwrite
        { registry := [libA1], disk := [libA1], trace := [] }).2
      = .ok [("C", { Name := "C", VersionRequired := "7" }),
             ("A", { Name := "A", VersionRequired := "2" })] ∧
    missingDepEnvReversed.ParseVersion "7" = .ok (some "7") ∧
    missingDepEnvReversed.FindRelease "C" (some "7") = .error (Err.upstream 2) ∧
    (LibraryInstall missingDepEnvReversed reqA2NoOverwrite [libA1] [libA1]).err =
      some (Err.message (Text.differentVersionInstalled relA2 libA1)) ∧
    (LibraryInstall missingDepEnvReversed reqA2NoOverwrite [libA1] [libA1]).err ≠
      some (Err.upstream 2) ∧
    (LibraryInstall missingDepEnv reqA2NoOverwrite [libA1] [libA1]).err =
      some (Err.upstream 2) := by
  refine ⟨rfl, rfl, rfl, ?_, ?_, ?_⟩ <;> decide

/-- A library absent from the catalog, requested alone: the not-found error is returned. -/
theorem LibraryInstall_not_found_is_returned_witness :
    sampleEnv.FindRelease "C" (some "7") = .error (Err.upstream 2) ∧
      (LibraryInstall sampleEnv reqMissing [libA1] [libA1]).err = some (Err.upstream 2) ∧
      (∀ ev ∈ (LibraryInstall sampleEnv reqMissing [libA1] [libA1]).world.trace,
        ev.isInstallWork = false) ∧
      (LibraryInstall sampleEnv reqMissing [libA1] [libA1]).world.registry = [libA1] ∧
      (LibraryInstall sampleEnv reqMissing [libA1] [libA1]).world.disk = [libA1] :=
  have h := LibraryInstall_not_found_is_returned sampleEnv reqMissing [libA1] [libA1]
    [("C", { Name := "C", VersionRequired := "7" })] { Name := "C", VersionRequired := "7" }
    (Err.upstream 2) rfl (by decide) (Or.inr ⟨some "7", rfl, rfl⟩)
  ⟨rfl, h.2.2.2.2 rfl rfl rfl [] [] [] rfl rfl, h.2.2.1, h.2.2.2.1⟩

/-- The shape of a run that obtains every lease. -/
theorem LibraryInstall_locked (env : Env) (req : LibraryInstallRequest) (reg : Registry)
    (disk : Disk)
    (w1 : World) (toInstall : List (String × LibraryDependencyStatus))
    (hidx : env.GetLibrariesIndex = none)
    (hb : buildToInstall env req { registry := reg, disk := disk, trace := [] } = (w1, .ok toInstall))
    (hpme : env.GetPackageManagerExplorer = none)
    (hlmi : env.GetLibraryManagerInstaller = none) :
    LibraryInstall env req reg disk =
      { world := (installWithLease env req toInstall (lockedStart w1)).1.emit
          (Event.release Lease.libraryInstaller),
        err := (installWithLease env req toInstall (lockedStart w1)).2 } := by
  simp [LibraryInstall, hidx, hb, hpme, hlmi, lockedStart]

/-- A permutation of a one-entry map visits that entry. -/
theorem visitOrder_singleton (env : Env) (name : String) (d : LibraryDependencyStatus) :
    visitOrder env [(name, d)] = [d] := by
  unfold visitOrder
  rw [List.perm_singleton.1 (env.rangeToInstall_perm [(name, d)])]
  rfl

/-- C2. With the no-dependencies flag set, the requirement set built by `LibraryInstall` has
exactly one entry, keyed by the requested name and carrying the requested name and version,
whatever the instance holds, and building it emits nothing; the planning loop visits that
one requirement; once the leases are granted, `LibraryInstall` is the planning of that one
requirement, the execution of the plan it yields, the re-initialisation and the release of
the installer lease; no run calls the dependency resolver or takes the explorer lease. -/
theorem LibraryInstall_noDeps_singleton (env : Env) (req : LibraryInstallRequest)
    (reg : Registry) (disk : Disk) (h : req.NoDeps = true) :
    buildToInstall env req { registry := reg, disk := disk, trace := [] } =
      ({ registry := reg, disk := disk, trace := [] },
       .ok [(req.Name, { Name := req.Name, VersionRequired := req.Version })]) ∧
    visitOrder env [(req.Name, { Name := req.Name, VersionRequired := req.Version })] =
      [{ Name := req.Name, VersionRequired := req.Version }] ∧
    (env.GetLibrariesIndex = none → env.GetPackageManagerExplorer = none →
      env.GetLibraryManagerInstaller = none →
      LibraryInstall env req reg disk =
        match planLoop env req.NoOverwrite
            (env.FromRPCLibraryInstallLocation req.InstallLocation)
            [{ Name := req.Name, VersionRequired := req.Version }] []
            { registry := reg, disk := disk,
              trace := [Event.acquire Lease.packageExplorer,
                        Event.release Lease.packageExplorer,
                        Event.acquire Lease.libraryInstaller] } with
        | (w1, .error err) =>
          { world := w1.emit (Event.release Lease.libraryInstaller), err := some err }
        | (w1, .ok plans) =>
          match executeLoop env req.Name
              (env.FromRPCLibraryInstallLocation req.InstallLocation)
              (env.rangeLibReleasesToInstall plans) w1 with
          | (w2, some err) =>
            { world := w2.emit (Event.release Lease.libraryInstaller), err := some err }
          | (w2, none) =>
            { world :=
                { registry := (env.Init w2.registry w2.disk).1, disk := w2.disk,
                  trace := w2.trace ++ [Event.init, Event.release Lease.libraryInstaller] },
              err := (env.Init w2.registry w2.disk).2 }) ∧
    (∀ name version noOverwrite,
      Event.resolve name version noOverwrite ∉ (LibraryInstall env req reg disk).world.trace) ∧
    Event.acquire Lease.libraryExplorer ∉ (LibraryInstall env req reg disk).world.trace := by
  have hb := buildToInstall_noDeps env req { registry := reg, disk := disk, trace := [] } h
  have hnone : ∀ e ∈ (LibraryInstall env req reg disk).world.trace,
      (∀ name version noOverwrite, e ≠ Event.resolve name version noOverwrite) ∧
        e ≠ Event.acquire Lease.libraryExplorer := by
    intro e hmem
    rcases LibraryInstall_trace env req reg disk _ hmem with hb | hp | hp | hp | hp | hl
    · rw [hb.1] at h
      simp at h
    · rw [hp]; simp
    · rw [hp]; simp
    · rw [hp]; simp
    · rw [hp]; simp
    · obtain ⟨toInstall, _, hl1 | hl1 | ⟨plans, _, rt, _, hl1 | hl1 | hl1⟩⟩ := hl
      · obtain ⟨p, hp⟩ := hl1
        rw [hp]; simp
      · rw [hl1]; simp
      · rw [hl1]; simp
      · obtain ⟨lib, hp, _⟩ := hl1
        rw [hp]; simp
      · obtain ⟨a, b, hp⟩ := hl1
        rw [hp]; simp
  refine ⟨hb, visitOrder_singleton env _ _, ?_, ?_, ?_⟩
  · intro hidx hpme hlmi
    have hv := visitOrder_singleton env req.Name
      { Name := req.Name, VersionRequired := req.Version }
    unfold visitOrder at hv
    rw [LibraryInstall_locked env req reg disk _ _ hidx hb hpme hlmi]
    unfold installWithLease
    dsimp only
    rw [hv]
    have hstart : lockedStart { registry := reg, disk := disk, trace := [] } =
        { registry := reg, disk := disk,
          trace := [Event.acquire Lease.packageExplorer,
                    Event.release Lease.packageExplorer,
                    Event.acquire Lease.libraryInstaller] } := rfl
    rw [hstart]
    rcases planLoop env req.NoOverwrite
      (env.FromRPCLibraryInstallLocation req.InstallLocation)
      [{ Name := req.Name, VersionRequired := req.Version }] []
      { registry := reg, disk := disk,
        trace := [Event.acquire Lease.packageExplorer,
                  Event.release Lease.packageExplorer,
                  Event.acquire Lease.libraryInstaller] } with ⟨w1, r⟩
    cases r with
    | error err => rfl
    | ok plans =>
      simp only []
      rcases executeLoop env req.Name
        (env.FromRPCLibraryInstallLocation req.InstallLocation)
        (env.rangeLibReleasesToInstall plans) w1 with ⟨w2, rx⟩
      cases rx with
      | some err => rfl
      | none => simp [World.emit]
  · intro name version noOverwrite hmem
    exact (hnone _ hmem).1 name version noOverwrite rfl
  · intro hmem
    exact (hnone _ hmem).2 rfl

/-- A request for A 2 alone, where A 1 is installed: the one requirement A 2 is built, and
the run downloads A 2, replaces A 1 and re-initialises. -/
theorem LibraryInstall_noDeps_singleton_witness :
    reqA2NoDeps.NoDeps = true ∧
      buildToInstall sampleEnv reqA2NoDeps
          { registry := [libA1], disk := [libA1], trace := [] } =
        ({ registry := [libA1], disk := [libA1], trace := [] },
         .ok [("A", { Name := "A", VersionRequired := "2" })]) ∧
      (LibraryInstall sampleEnv reqA2NoDeps [libA1] [libA1]).world.trace =
        [Event.acquire Lease.packageExplorer,
         Event.release Lease.packageExplorer,
         Event.acquire Lease.libraryInstaller,
         Event.download relA2 "upgrade",
         Event.task { Name := Text.installing relA2 },
         Event.task { Message := Text.replacing libA1 relA2 },
         Event.uninstall relA2 libA1,
         Event.install relA2 ["libraries"] ["libraries", "A"],
         Event.task { Message := Text.installed relA2, Completed := true },
         Event.init,
         Event.release Lease.libraryInstaller] :=
  ⟨rfl, (LibraryInstall_noDeps_singleton sampleEnv reqA2NoDeps [libA1] [libA1] rfl).1,
    by decide⟩

/-- C6, as the code has it. In a run whose plan has two entries, where the first entry
executes successfully and the download of the second fails: `LibraryInstall` returns the
error of that download; the disk it leaves is exactly the one produced by the resource
install of the first entry; after that install the only events are the completed notice of
the first library, the failed download and the release of the installer lease, so nothing
is uninstalled or rolled back; and the registry is the one the uninstall step of the first
entry left: the install adds nothing to it and the re-initialisation is not run. -/
theorem LibraryInstall_failed_download_keeps_first (env : Env) (req : LibraryInstallRequest)
    (reg : Registry) (disk : Disk) (toInstall : List (String × LibraryDependencyStatus))
    (plans : List (Release × LibraryInstallPlan))
    (r1 : Release) (t1 : LibraryInstallPlan) (r2 : Release) (t2 : LibraryInstallPlan)
    (err : Err)
    (hidx : env.GetLibrariesIndex = none)
    (hbuild : (buildToInstall env req { registry := reg, disk := disk, trace := [] }).2 =
      .ok toInstall)
    (hpme : env.GetPackageManagerExplorer = none)
    (hlmi : env.GetLibraryManagerInstaller = none)
    (hplan : (planLoop env req.NoOverwrite
      (env.FromRPCLibraryInstallLocation req.InstallLocation) (visitOrder env toInstall) []
      { registry := reg, disk := disk, trace := [] }).2 = .ok plans)
    (horder : env.rangeLibReleasesToInstall plans = [(r1, t1), (r2, t2)])
    (hdl1 : env.downloadLibrary r1 (downloadReason req.Name
      (env.FromRPCLibraryInstallLocation req.InstallLocation) r1 t1) = none)
    (hun1 : (afterUninstall env t1 reg disk).2 = none)
    (hin1 : (env.ResourceInstall (afterUninstall env t1 reg disk).1.2 r1
      (Path.Parent t1.TargetPath) t1.TargetPath).2 = none)
    (hdl2 : env.downloadLibrary r2 (downloadReason req.Name
      (env.FromRPCLibraryInstallLocation req.InstallLocation) r2 t2) = some err) :
    (LibraryInstall env req reg disk).err = some err ∧
    (LibraryInstall env req reg disk).world.disk =
      (env.ResourceInstall (afterUninstall env t1 reg disk).1.2 r1
        (Path.Parent t1.TargetPath) t1.TargetPath).1 ∧
    (LibraryInstall env req reg disk).world.registry = (afterUninstall env t1 reg disk).1.1 ∧
    ∃ before, (LibraryInstall env req reg disk).world.trace = before ++
      [Event.install r1 (Path.Parent t1.TargetPath) t1.TargetPath,
       Event.task { Message := Text.installed r1, Completed := true },
       Event.download r2 (downloadReason req.Name
         (env.FromRPCLibraryInstallLocation req.InstallLocation) r2 t2),
       Event.release Lease.libraryInstaller] := by
  rcases hb : buildToInstall env req { registry := reg, disk := disk, trace := [] } with ⟨w1, r⟩
  have hbw := buildToInstall_world env req { registry := reg, disk := disk, trace := [] }
  rw [hb] at hbuild hbw
  simp only [] at hbuild hbw
  subst hbuild
  rw [LibraryInstall_locked env req reg disk w1 toInstall hidx hb hpme hlmi]
  have hreg : (lockedStart w1).registry = reg := by
    simpa [lockedStart] using hbw.1
  have hdisk : (lockedStart w1).disk = disk := by
    simpa [lockedStart] using hbw.2.1
  have hpw := planLoop_world env req.NoOverwrite
    (env.FromRPCLibraryInstallLocation req.InstallLocation) (visitOrder env toInstall) []
    (lockedStart w1)
  have hpr := planLoop_result env req.NoOverwrite
    (env.FromRPCLibraryInstallLocation req.InstallLocation) (visitOrder env toInstall) []
    (lockedStart w1) { registry := reg, disk := disk, trace := [] } hreg
  rw [hplan] at hpr
  unfold installWithLease
  unfold visitOrder at hpw hpr
  dsimp only
  rcases hp : planLoop env req.NoOverwrite
    (env.FromRPCLibraryInstallLocation req.InstallLocation)
    ((env.rangeToInstall toInstall).map Prod.snd) [] (lockedStart w1) with ⟨w4, rp⟩
  rw [hp] at hpw hpr
  simp only [] at hpw hpr
  subst hpr
  have hreg4 : w4.registry = reg := by rw [hpw.1, hreg]
  have hdisk4 : w4.disk = disk := by rw [hpw.2.1, hdisk]
  simp only []
  rw [horder, executeLoop_cons, hdl1]
  simp only []
  have hun1a : (afterUninstall env t1 (w4.emit (Event.download r1 (downloadReason req.Name
      (env.FromRPCLibraryInstallLocation req.InstallLocation) r1 t1))).registry
      (w4.emit (Event.download r1 (downloadReason req.Name
      (env.FromRPCLibraryInstallLocation req.InstallLocation) r1 t1))).disk).2 = none := by
    rw [World.emit_registry, World.emit_disk, hreg4, hdisk4]
    exact hun1
  have hin1a : (env.ResourceInstall (afterUninstall env t1 (w4.emit (Event.download r1
      (downloadReason req.Name (env.FromRPCLibraryInstallLocation req.InstallLocation) r1
        t1))).registry (w4.emit (Event.download r1
      (downloadReason req.Name (env.FromRPCLibraryInstallLocation req.InstallLocation) r1
        t1))).disk).1.2 r1 (Path.Parent t1.TargetPath) t1.TargetPath).2 = none := by
    rw [World.emit_registry, World.emit_disk, hreg4, hdisk4]
    exact hin1
  rw [installLibrary_ok env r1 t1 _ hun1a hin1a]
  simp only []
  rw [executeLoop_cons, hdl2]
  refine ⟨rfl, ?_, ?_, ⟨w4.trace ++ [Event.download r1 (downloadReason req.Name
    (env.FromRPCLibraryInstallLocation req.InstallLocation) r1 t1)] ++
      installPrologue r1 t1, ?_⟩⟩
  · simp only [World.emit_registry, World.emit_disk, hreg4, hdisk4]
  · simp only [World.emit_registry, World.emit_disk, hreg4, hdisk4]
  · simp

/-- A 2 replaces A 1, then the download of B fails: A 2 stays on disk, the registry is stale. -/
theorem LibraryInstall_failed_download_keeps_first_witness :
    (LibraryInstall sampleEnv reqA2 [libA1] [libA1]).err = some (Err.upstream 3) ∧
      (LibraryInstall sampleEnv reqA2 [libA1] [libA1]).world.disk = [libA2] ∧
      (LibraryInstall sampleEnv reqA2 [libA1] [libA1]).world.registry = [] ∧
      ∃ before, (LibraryInstall sampleEnv reqA2 [libA1] [libA1]).world.trace = before ++
        [Event.install relA2 ["libraries"] ["libraries", "A"],
         Event.task { Message := Text.installed relA2, Completed := true },
         Event.download relB1 "depends",
         Event.release Lease.libraryInstaller] :=
  LibraryInstall_failed_download_keeps_first sampleEnv reqA2 [libA1] [libA1]
    [("A", { Name := "A", VersionRequired := "2" }),
     ("B", { Name := "B", VersionRequired := "1" })]
    [(relA2, planReplaceA1), (relB1, planFreshB)]
    relA2 planReplaceA1 relB1 planFreshB (Err.upstream 3)
    rfl rfl rfl rfl rfl rfl rfl rfl rfl rfl

/-- C6 refuted as stated. Installing A 2 with its dependency B on an empty system: the
install of A succeeds, the download of B fails, `LibraryInstall` returns that error; A 2 is
on the disk, the re-initialisation has not run, and the registry does not list A. The same
request without the dependency runs the re-initialisation and the registry lists A 2. -/
theorem failed_batch_registry_not_refreshed :
    (LibraryInstall sampleEnv reqA2 [] []).err = some (Err.upstream 3) ∧
    Event.install relA2 ["libraries"] ["libraries", "A"] ∈
      (LibraryInstall sampleEnv reqA2 [] []).world.trace ∧
    (LibraryInstall sampleEnv reqA2 [] []).world.disk = [libA2] ∧
    (LibraryInstall sampleEnv reqA2 [] []).world.registry = [] ∧
    Event.init ∉ (LibraryInstall sampleEnv reqA2 [] []).world.trace ∧
    (LibraryInstall sampleEnv reqA2NoDeps [] []).err = none ∧
    Event.init ∈ (LibraryInstall sampleEnv reqA2NoDeps [] []).world.trace ∧
    (LibraryInstall sampleEnv reqA2NoDeps [] []).world.registry = [libA2] := by
  decide

theorem leaseStep_other (h : Option (List Lease)) (e : Event)
    (he : ∀ l, e ≠ Event.acquire l ∧ e ≠ Event.release l) : leaseStep h e = h := by
  cases h with
  | none => cases e <;> rfl
  | some hs =>
    cases e with
    | acquire l => exact absurd rfl (he l).1
    | release l => exact absurd rfl (he l).2
    | _ => rfl

theorem foldl_leaseStep_other (evs : List Event) :
    ∀ h : Option (List Lease), (∀ e ∈ evs, ∀ l, e ≠ Event.acquire l ∧ e ≠ Event.release l) →
      evs.foldl leaseStep h = h := by
  induction evs with
  | nil =>
    intro h _
    rfl
  | cons e rest ih =>
    intro h hev
    rw [List.foldl_cons, leaseStep_other h e (hev e (List.mem_cons_self _ _))]
    exact ih h (fun e1 he1 => hev e1 (List.mem_cons_of_mem _ he1))

theorem leasesHeld_append (a b : List Event) :
    leasesHeld (a ++ b) = b.foldl leaseStep (leasesHeld a) := by
  simp [leasesHeld, List.foldl_append]

/-- The construction of the requirement set takes and gives back the explorer lease. -/
theorem buildToInstall_leases (env : Env) (req : LibraryInstallRequest) (w : World) :
    leasesHeld (buildToInstall env req w).1.trace = leasesHeld w.trace := by
  unfold buildToInstall
  cases req.NoDeps with
  | true => rfl
  | false =>
    simp only [Bool.false_eq_true, if_false]
    cases env.GetLibraryManagerExplorer with
    | some err => rfl
    | none =>
      simp only []
      have h3 : leasesHeld (w.trace ++ [Event.acquire Lease.libraryExplorer,
          Event.resolve req.Name req.Version req.NoOverwrite,
          Event.release Lease.libraryExplorer]) = leasesHeld w.trace := by
        rw [leasesHeld_append]
        cases leasesHeld w.trace with
        | none => rfl
        | some hs => simp [leaseStep]
      cases env.libraryResolveDependencies w.registry req.Name req.Version req.NoOverwrite with
      | error err => simpa [World.emit] using h3
      | ok deps => simpa [World.emit] using h3

/-- Nothing that runs under the installer lease touches a lease. -/
theorem installWithLease_leases (env : Env) (req : LibraryInstallRequest)
    (toInstall : List (String × LibraryDependencyStatus)) (w : World) :
    leasesHeld (installWithLease env req toInstall w).1.trace = leasesHeld w.trace := by
  obtain ⟨evs, hevs, hP⟩ := installWithLease_trace env req toInstall w
  rw [hevs, leasesHeld_append]
  apply foldl_leaseStep_other
  intro e he l
  rcases hP e he with ⟨p, h⟩ | h | ⟨plans, _, rt, _, h | ⟨l1, h, _⟩ | ⟨a, b, h⟩⟩ <;>
    rw [h] <;> simp

theorem foldl_leaseStep_none (evs : List Event) : evs.foldl leaseStep none = none := by
  induction evs with
  | nil => rfl
  | cons e rest ih =>
    rw [List.foldl_cons]
    have h : leaseStep none e = none := by cases e <;> rfl
    rw [h, ih]

/-- A ledger that never fails balances, lease by lease, what was acquired and released. -/
theorem leaseLedger_counts (evs : List Event) :
    ∀ (hs hs1 : List Lease), evs.foldl leaseStep (some hs) = some hs1 →
      ∀ l, hs.count l + evs.count (Event.acquire l) =
        hs1.count l + evs.count (Event.release l) := by
  induction evs with
  | nil =>
    intro hs hs1 h l
    simp only [List.foldl_nil, Option.some.injEq] at h
    subst h
    simp
  | cons e rest ih =>
    intro hs hs1 h l
    rw [List.foldl_cons] at h
    cases e with
    | acquire l0 =>
      have h1 := ih (l0 :: hs) hs1 h l
      by_cases hl : l0 = l
      · subst hl
        simp only [List.count_cons_self] at h1 ⊢
        have h2 : (Event.acquire l0 :: rest).count (Event.release l0) =
            rest.count (Event.release l0) := by
          rw [List.count_cons_of_ne (by simp)]
        rw [h2]
        omega
      · have h2 : (Event.acquire l0 :: rest).count (Event.release l) =
            rest.count (Event.release l) := by
          rw [List.count_cons_of_ne (by simp)]
        have h3 : (Event.acquire l0 :: rest).count (Event.acquire l) =
            rest.count (Event.acquire l) := by
          rw [List.count_cons_of_ne (by simpa using Ne.symm hl)]
        have h4 : (l0 :: hs).count l = hs.count l := by
          rw [List.count_cons_of_ne (Ne.symm hl)]
        rw [h2, h3]
        omega
    | release l0 =>
      by_cases hmem : l0 ∈ hs
      · have hstep : leaseStep (some hs) (Event.release l0) = some (hs.erase l0) := by
          simp [leaseStep, hmem]
        rw [hstep] at h
        have h1 := ih (hs.erase l0) hs1 h l
        have h2 : (Event.release l0 :: rest).count (Event.acquire l) =
            rest.count (Event.acquire l) := by
          rw [List.count_cons_of_ne (by simp)]
        by_cases hl : l0 = l
        · subst hl
          have hpos : 0 < hs.count l0 := List.count_pos_iff.2 hmem
          have h3 : (hs.erase l0).count l0 = hs.count l0 - 1 := List.count_erase_self _ _
          simp only [List.count_cons_self]
          rw [h2]
          omega
        · have h3 : (hs.erase l0).count l = hs.count l :=
            List.count_erase_of_ne (Ne.symm hl) _
          have h4 : (Event.release l0 :: rest).count (Event.release l) =
              rest.count (Event.release l) := by
            rw [List.count_cons_of_ne (by simpa using Ne.symm hl)]
          rw [h2, h4]
          omega
      · have hstep : leaseStep (some hs) (Event.release l0) = none := by
          simp [leaseStep, hmem]
        rw [hstep, foldl_leaseStep_none] at h
        simp at h
    | resolve n v b =>
      have h1 := ih hs hs1 h l
      rw [List.count_cons_of_ne (by simp), List.count_cons_of_ne (by simp)]
      exact h1
    | task p =>
      have h1 := ih hs hs1 h l
      rw [List.count_cons_of_ne (by simp), List.count_cons_of_ne (by simp)]
      exact h1
    | download r d =>
      have h1 := ih hs hs1 h l
      rw [List.count_cons_of_ne (by simp), List.count_cons_of_ne (by simp)]
      exact h1
    | uninstall r d =>
      have h1 := ih hs hs1 h l
      rw [List.count_cons_of_ne (by simp), List.count_cons_of_ne (by simp)]
      exact h1
    | install r a b =>
      have h1 := ih hs hs1 h l
      rw [List.count_cons_of_ne (by simp), List.count_cons_of_ne (by simp)]
      exact h1
    | init =>
      have h1 := ih hs hs1 h l
      rw [List.count_cons_of_ne (by simp), List.count_cons_of_ne (by simp)]
      exact h1
    | installZipLib a b =>
      have h1 := ih hs hs1 h l
      rw [List.count_cons_of_ne (by simp), List.count_cons_of_ne (by simp)]
      exact h1
    | installGitLib a b =>
      have h1 := ih hs hs1 h l
      rw [List.count_cons_of_ne (by simp), List.count_cons_of_ne (by simp)]
      exact h1

theorem released_as_often_as_acquired (trace : List Event) (h : leasesHeld trace = some []) :
    ∀ l, trace.count (Event.release l) = trace.count (Event.acquire l) := by
  intro l
  have h1 := leaseLedger_counts trace [] [] h l
  simpa using h1.symm

/-- The lease ledger of each of the three install functions ends empty on every path. -/
theorem leaseLedger_every_path (env : Env) :
    (∀ req reg disk, leasesHeld (LibraryInstall env req reg disk).world.trace = some []) ∧
    (∀ req reg disk, leasesHeld (ZipLibraryInstall env req reg disk).world.trace = some []) ∧
    (∀ req reg disk, leasesHeld (GitLibraryInstall env req reg disk).world.trace = some []) := by
  refine ⟨?_, ?_, ?_⟩
  · intro req reg disk
    have hb := buildToInstall_leases env req { registry := reg, disk := disk, trace := [] }
    unfold LibraryInstall
    cases env.GetLibrariesIndex with
    | some err => rfl
    | none =>
      simp only []
      rcases hbe : buildToInstall env req { registry := reg, disk := disk, trace := [] } with ⟨w1, r⟩
      rw [hbe] at hb
      simp only [] at hb
      have hw1 : leasesHeld w1.trace = some [] := by
        rw [hb]
        rfl
      cases r with
      | error err => exact hw1
      | ok toInstall =>
        simp only []
        cases env.GetPackageManagerExplorer with
        | some err => exact hw1
        | none =>
          simp only []
          have hw2 : leasesHeld ((w1.emit (Event.acquire Lease.packageExplorer)).emit
              (Event.release Lease.packageExplorer)).trace = some [] := by
            simp only [World.emit_trace, List.append_assoc]
            rw [leasesHeld_append, hw1]
            simp [leaseStep]
          cases env.GetLibraryManagerInstaller with
          | some err => exact hw2
          | none =>
            simp only []
            rw [World.emit_trace, leasesHeld_append, installWithLease_leases,
              World.emit_trace, leasesHeld_append, hw2]
            simp [leaseStep]
  · intro req reg disk
    unfold ZipLibraryInstall
    cases env.GetLibraryManager with
    | some err => rfl
    | none =>
      simp only []
      cases (env.InstallZipLib _ _ req.Path req.Overwrite).2 with
      | some err => simp [leasesHeld, leaseStep, World.emit]
      | none => simp [leasesHeld, leaseStep, World.emit]
  · intro req reg disk
    unfold GitLibraryInstall
    cases env.GetLibraryManager with
    | some err => rfl
    | none =>
      simp only []
      cases (env.InstallGitLib _ _ req.Url req.Overwrite).2 with
      | some err => simp [leasesHeld, leaseStep, World.emit]
      | none => simp [leasesHeld, leaseStep, World.emit]

/-- C8. On every path of `LibraryInstall`, `ZipLibraryInstall` and `GitLibraryInstall`, the
lease ledger of the trace ends empty without ever failing (each release gives back a lease
held at that moment, and no lease is held when the function returns), and every lease is
released exactly as many times as it was acquired. -/
theorem leases_released_exactly_once (env : Env) :
    (∀ req reg disk, leasesHeld (LibraryInstall env req reg disk).world.trace = some [] ∧
      ∀ l, (LibraryInstall env req reg disk).world.trace.count (Event.release l) =
        (LibraryInstall env req reg disk).world.trace.count (Event.acquire l)) ∧
    (∀ req reg disk, leasesHeld (ZipLibraryInstall env req reg disk).world.trace = some [] ∧
      ∀ l, (ZipLibraryInstall env req reg disk).world.trace.count (Event.release l) =
        (ZipLibraryInstall env req reg disk).world.trace.count (Event.acquire l)) ∧
    (∀ req reg disk, leasesHeld (GitLibraryInstall env req reg disk).world.trace = some [] ∧
      ∀ l, (GitLibraryInstall env req reg disk).world.trace.count (Event.release l) =
        (GitLibraryInstall env req reg disk).world.trace.count (Event.acquire l)) := by
  obtain ⟨h1, h2, h3⟩ := leaseLedger_every_path env
  exact ⟨fun req reg disk => ⟨h1 req reg disk, released_as_often_as_acquired _ (h1 req reg disk)⟩,
    fun req reg disk => ⟨h2 req reg disk, released_as_often_as_acquired _ (h2 req reg disk)⟩,
    fun req reg disk => ⟨h3 req reg disk, released_as_often_as_acquired _ (h3 req reg disk)⟩⟩

/-- C10, as the code has it. The reason of a plan entry is "depends" exactly when the name
of the release differs from the requested name; for the requested library outside the IDE
built-in location it is "upgrade" exactly when the plan has a replaced library and "install"
exactly when it has none; the IDE built-in location appends "-builtin" to the reason of the
requested library and leaves the reason of a dependency as it is. The reason is the one
handed to the download of the entry, the first event of its execution; the event that ends
a successful `installLibrary` is the completed notice of the release, the same whatever the
reason. -/
theorem downloadReason_goes_to_download (reqName : String) (loc : LibraryLocation)
    (libRelease : Release) (installTask : LibraryInstallPlan) :
    (downloadReason reqName loc libRelease installTask = "depends" ↔
      libRelease.Name ≠ reqName) ∧
    (libRelease.Name = reqName → loc ≠ LibraryLocation.IDEBuiltIn →
      (downloadReason reqName loc libRelease installTask = "upgrade" ↔
        installTask.ReplacedLib ≠ none) ∧
      (downloadReason reqName loc libRelease installTask = "install" ↔
        installTask.ReplacedLib = none)) ∧
    (libRelease.Name = reqName →
      downloadReason reqName LibraryLocation.IDEBuiltIn libRelease installTask =
        downloadReason reqName LibraryLocation.User libRelease installTask ++ "-builtin") ∧
    (libRelease.Name ≠ reqName →
      downloadReason reqName LibraryLocation.IDEBuiltIn libRelease installTask =
        downloadReason reqName LibraryLocation.User libRelease installTask) ∧
    (∀ (env : Env) rest w, ∃ more,
      (executeLoop env reqName loc ((libRelease, installTask) :: rest) w).1.trace =
        w.trace ++ Event.download libRelease
          (downloadReason reqName loc libRelease installTask) :: more) ∧
    (∀ (env : Env) w, (installLibrary env libRelease installTask w).2 = none →
      ∃ before, (installLibrary env libRelease installTask w).1.trace =
        before ++ [Event.task { Message := Text.installed libRelease, Completed := true }]) := by
  refine ⟨?_, ?_, ?_, ?_, ?_, ?_⟩
  · unfold downloadReason
    by_cases hn : libRelease.Name = reqName
    · simp only [hn, if_true, ne_eq, not_true_eq_false, iff_false]
      cases installTask.ReplacedLib <;> cases loc <;>
        simp only [Option.isSome_none, Option.isSome_some, Bool.false_eq_true,
          if_false, if_true, reduceCtorEq] <;> decide
    · simp [hn]
  · intro hn hloc
    unfold downloadReason
    simp only [hn, if_true, hloc, if_false]
    cases installTask.ReplacedLib with
    | none => simp
    | some l => simp
  · intro hn
    simp [downloadReason, hn]
  · intro hn
    simp [downloadReason, hn]
  · intro env rest w
    rw [executeLoop_cons]
    cases env.downloadLibrary libRelease (downloadReason reqName loc libRelease installTask) with
    | some err => exact ⟨[], rfl⟩
    | none =>
      simp only []
      obtain ⟨a, ha, _⟩ := installLibrary_trace env libRelease installTask
        (w.emit (Event.download libRelease (downloadReason reqName loc libRelease installTask)))
      rcases hres : installLibrary env libRelease installTask (w.emit (Event.download libRelease
          (downloadReason reqName loc libRelease installTask))) with ⟨w2, r⟩
      rw [hres] at ha
      simp only [World.emit_trace] at ha
      cases r with
      | some err =>
        simp only []
        exact ⟨a, by rw [ha]; simp⟩
      | none =>
        simp only []
        obtain ⟨b, hb, _⟩ := executeLoop_trace env reqName loc rest w2
        exact ⟨a ++ b, by rw [hb, ha]; simp⟩
  · intro env w hok
    cases hun : (afterUninstall env installTask w.registry w.disk).2 with
    | some err =>
      rw [installLibrary_uninstall_fails env libRelease installTask w err hun] at hok
      simp at hok
    | none =>
      cases hinst : (env.ResourceInstall (afterUninstall env installTask w.registry w.disk).1.2
        libRelease (Path.Parent installTask.TargetPath) installTask.TargetPath).2 with
      | some err =>
        rw [installLibrary_install_fails env libRelease installTask w err hun hinst] at hok
        simp at hok
      | none =>
        rw [installLibrary_ok env libRelease installTask w hun hinst]
        exact ⟨w.trace ++ installPrologue libRelease installTask ++
          [Event.install libRelease (Path.Parent installTask.TargetPath)
            installTask.TargetPath], by simp⟩

/-- C10, the last sentence refuted. Installing A 2 over A 1 has the reason "upgrade" and
installing it on an empty registry has the reason "install", both handed to the download;
in both runs the only completed task-progress event is the same notice, which names the
release and no reason. -/
theorem installed_event_carries_no_reason :
    Event.download relA2 "upgrade" ∈ (LibraryInstall sampleEnv reqA2NoDeps [libA1] [libA1]).world.trace ∧
    Event.download relA2 "install" ∈ (LibraryInstall sampleEnv reqA2NoDeps [] []).world.trace ∧
    (LibraryInstall sampleEnv reqA2NoDeps [libA1] [libA1]).world.trace.filter Event.isCompleted =
      [Event.task { Message := Text.installed relA2, Completed := true }] ∧
    (LibraryInstall sampleEnv reqA2NoDeps [] []).world.trace.filter Event.isCompleted =
      [Event.task { Message := Text.installed relA2, Completed := true }] := by
  decide

end ArduinoCli
